import Mathlib

/-!
Verification of the reconciliation engine of `pkg/team/manager.go`.

The Go code is shallowly embedded:

* The `config` package is not part of the analysed sources; its record
  shapes are reconstructed from their use in `manager.go` and from the
  spec's data model (structures below). Go `nil` slices and empty slices
  are identified (both become `[]`); no analysed claim distinguishes them.
* Go maps (`map[string]T`) are modelled as insertion-ordered association
  lists. Go's map iteration order is unspecified (randomised); wherever an
  iteration order is observable in a result — the enumeration of the
  member set rebuilt in `SyncTeams` — the embedding takes the order as an
  explicit parameter `mapIter`, constrained only to be a permutation.
  Iterations whose order cannot affect the final state (the diff pass over
  `localCfg.Teams`, the apply pass over `teamChanges`) use the insertion
  order of the association list.
* `reflect.DeepEqual` on the embedded records is structural equality.
* Remote calls, confirmation prompts and error prints are modelled by an
  explicit event trace and oracle parameters.
-/

namespace TeamManager

/-- `config.User`: a member identity (ID stored as the string produced by
`fmt.Sprintf("%v", id)`, plus a display name). -/
structure User where
  id : String
  name : String
deriving DecidableEq, Repr

/-- `config.ExcludedMember`. Modelled from the spec: the `config` package is
not among the analysed sources; the spec's policy holds
`excludedMembers: set<login>` and `manager.go` reads only `.Login`. -/
structure ExcludedMember where
  login : String
deriving DecidableEq, Repr

/-- `config.CodeReviewAssignment`, fields as read and written in
`manager.go` (`Algorithm`, `Enabled`, `NotifyTeam`, `TeamMemberCount`,
`ExcludedMembers`). -/
structure CodeReviewAssignment where
  algorithm : String
  enabled : Bool
  notifyTeam : Bool
  teamMemberCount : Int
  excludedMembers : List ExcludedMember
deriving DecidableEq, Repr

/-- `config.TeamConfig`, fields as used in `manager.go`: remote-assigned
`ID`, the `CodeReviewAssignment`, and the member login list. -/
structure TeamConfig where
  id : String
  codeReviewAssignment : CodeReviewAssignment
  members : List String
deriving DecidableEq, Repr

/-- `config.Config`: organization name, team map, member directory, and the
org-wide CRA exclusion list (`ExcludeCRAFromAllTeams`). Maps are modelled
as insertion-ordered association lists. -/
structure Config where
  organization : String
  teams : List (String × TeamConfig)
  members : List (String × User)
  excludeCRAFromAllTeams : List String
deriving DecidableEq, Repr

/-! ### Association-list model of Go maps -/

/-- Go map read `m[k]` (with presence flag): first binding of `k`. -/
def lookupA {α : Type} (m : List (String × α)) (k : String) : Option α :=
  match m with
  | [] => none
  | (k', v) :: rest => if k' = k then some v else lookupA rest k

/-- Go map read `m[k]` in value position: missing keys give the zero
value `d`. -/
def lookupD {α : Type} (m : List (String × α)) (k : String) (d : α) : α :=
  (lookupA m k).getD d

/-- Go map write `m[k] = v`: replace the binding in place, else append. -/
def insertA {α : Type} (m : List (String × α)) (k : String) (v : α) :
    List (String × α) :=
  match m with
  | [] => [(k, v)]
  | (k', v') :: rest =>
    if k' = k then (k', v) :: rest else (k', v') :: insertA rest k v

/-! ### The member set `map[string]struct{}` of `SyncTeams`

Modelled as a duplicate-free list in insertion order; `delete` filters the
key out, insertion appends when absent. -/

/-- `m[x] = struct{}{}` on a set-map. -/
def setInsert (l : List String) (x : String) : List String :=
  if x ∈ l then l else l ++ [x]

/-- `delete(m, x)` on a set-map. -/
def setRemove (l : List String) (x : String) : List String :=
  l.filter (fun y => ¬ y = x)

/-! ### Diff pass (`SyncTeams`, lines 264–283) -/

/-- The zero value of `config.TeamConfig` (what `upstreamCfg.Teams[name]`
yields for a team absent from the remote snapshot). -/
def zeroTeamConfig : TeamConfig :=
  { id := ""
    codeReviewAssignment :=
      { algorithm := ""
        enabled := false
        notifyTeam := false
        teamMemberCount := 0
        excludedMembers := [] }
    members := [] }

/-- `localTeam.CodeReviewAssignment.ExcludedMembers = nil`. -/
def clearExcluded (t : TeamConfig) : TeamConfig :=
  { t with codeReviewAssignment :=
      { t.codeReviewAssignment with excludedMembers := [] } }

/-- `slices.NotIn`. Modelled from the spec: the `slices` package is not
among the analysed sources; the spec defines the derived sets as
`toAdd = localMembers − remoteMembers` and `toRemove = remoteMembers −
localMembers` (set difference), so `notIn a b` keeps the elements of `a`
not occurring in `b`. -/
def notIn (a b : List String) : List String :=
  a.filter (fun x => ¬ x ∈ b)

/-- The per-team pending change (`teamChange`). -/
structure TeamChange where
  add : List String
  remove : List String
deriving DecidableEq, Repr

/-- One iteration of the diff loop of `SyncTeams`: back up and clear the
local team's `ExcludedMembers`, deep-compare with the remote counterpart,
and derive the add/remove sets. The restore of the backup only affects the
loop-local copy in Go and is therefore not part of the result. -/
def diffTeam (localTeam upstreamTeam : TeamConfig) : Option TeamChange :=
  let localTeam := clearExcluded localTeam
  if localTeam ≠ upstreamTeam then
    let toAdd := notIn localTeam.members upstreamTeam.members
    let toDel := notIn upstreamTeam.members localTeam.members
    if toAdd.length ≠ 0 ∨ toDel.length ≠ 0 then
      some { add := toAdd, remove := toDel }
    else none
  else none

/-- The diff pass: the `teamChanges` map, one entry per local team whose
`diffTeam` records a change. -/
def diffPass (localCfg upstreamCfg : Config) : List (String × TeamChange) :=
  localCfg.teams.foldr
    (fun p acc =>
      match diffTeam p.2 (lookupD upstreamCfg.teams p.1 zeroTeamConfig) with
      | some ch => (p.1, ch) :: acc
      | none => acc)
    []

/-! ### Events and oracles

Remote mutation calls and operator-visible error reports are collected in
one trace. `Ev.add`/`Ev.remove`/`Ev.updateReview` are the remote mutation
calls; `Ev.syncError`, `Ev.reviewError` and `Ev.lookupError` are the
`[ERROR]` prints of `SyncTeams` and `getExcludedUsers`. -/
inductive Ev : Type where
  | add (teamName user : String)
  | remove (teamName user : String)
  | updateReview (teamID : String)
  | syncError (teamName : String)
  | reviewError (teamName : String)
  | lookupError (login teamName : String)
deriving DecidableEq, Repr

/-- Whether an event is a remote mutation call. -/
def isMutation : Ev → Bool
  | .add _ _ => true
  | .remove _ _ => true
  | .updateReview _ => true
  | _ => false

/-- Issue a sequence of remote calls, stopping at the first failure (the Go
pattern `if err := call(); err != nil { return err }`). The oracle `E`
answers whether a call succeeds. Returns the calls actually attempted
(including a failing one) and whether all succeeded. -/
def callSeq (E : Ev → Bool) : List Ev → List Ev × Bool
  | [] => ([], true)
  | c :: cs =>
    if E c then
      let r := callSeq E cs
      (c :: r.1, r.2)
    else ([c], false)

/-- `SyncTeamMembers`: one add call per login to add, then one remove call
per login to remove, aborting on the first failed call. -/
def syncTeamMembers (E : Ev → Bool) (teamName : String)
    (add remove : List String) : List Ev × Bool :=
  callSeq E (add.map (fun u => Ev.add teamName u)
    ++ remove.map (fun u => Ev.remove teamName u))

/-! ### Confirmed membership pass (`SyncTeams`, lines 299–324) -/

/-- The in-memory member recomputation for one team (lines 307–322):
rebuild the member set from `localCfg.Teams[teamName].Members`, delete the
removals, add the additions, and store the enumeration of the set back.
`mapIter` is the unspecified Go map iteration order. -/
def applyTeam (mapIter : List String → List String) (cfg : Config)
    (teamName : String) (ch : TeamChange) : Config :=
  let teamMembers := (lookupD cfg.teams teamName zeroTeamConfig).members.foldl
    setInsert []
  let teamMembers := ch.remove.foldl setRemove teamMembers
  let teamMembers := ch.add.foldl setInsert teamMembers
  let team := lookupD cfg.teams teamName zeroTeamConfig
  let team := { team with members := mapIter teamMembers }
  { cfg with teams := insertA cfg.teams teamName team }

/-- The confirmed membership pass: for each pending change, unless
`dryRun`, issue the remote calls; a failure is reported and skips that
team's recomputation; otherwise (or under `dryRun`) the in-memory member
list is recomputed. -/
def applyPass (mapIter : List String → List String) (E : Ev → Bool)
    (dryRun : Bool) (cfg : Config) (changes : List (String × TeamChange)) :
    Config × List Ev :=
  changes.foldl
    (fun acc p =>
      if dryRun then (applyTeam mapIter acc.1 p.1 p.2, acc.2)
      else
        let r := syncTeamMembers E p.1 p.2.add p.2.remove
        if r.2 then (applyTeam mapIter acc.1 p.1 p.2, acc.2 ++ r.1)
        else (acc.1, acc.2 ++ r.1 ++ [Ev.syncError p.1]))
    (cfg, [])

/-! ### Exclusion resolution (`getExcludedUsers`) -/

/-- `getExcludedUsers`: resolve the per-team exclusions (reporting and
skipping logins missing from the member directory), then the org-wide
exclusions (silently skipping missing logins); the result is the
deduplicated set of resolved directory IDs. The ID-set map is modelled in
insertion order (its enumeration order is unspecified in Go; the claims
about it are order-insensitive). -/
def getExcludedUsers (teamName : String) (members : List (String × User))
    (excTeamMembers : List ExcludedMember) (excAllTeams : List String) :
    List String × List Ev :=
  let step1 := excTeamMembers.foldl
    (fun acc em =>
      match lookupA members em.login with
      | none => (acc.1, acc.2 ++ [Ev.lookupError em.login teamName])
      | some user => (setInsert acc.1 user.id, acc.2))
    ([], [])
  excAllTeams.foldl
    (fun acc login =>
      match lookupA members login with
      | none => acc
      | some user => (setInsert acc.1 user.id, acc.2))
    step1

/-! ### Review-assignment pass (`SyncTeams`, lines 327–360) -/

/-- The review-assignment pass: iterate all local teams in name-sorted
order, resolve each team's excluded users, and, unless `dryRun`, issue the
`updateTeamReviewAssignment` mutation; a failure is reported and does not
abort the loop. This pass never modifies the config. -/
def policyPass (E : Ev → Bool) (dryRun : Bool) (cfg : Config) : List Ev :=
  let teamNames := (cfg.teams.map Prod.fst).insertionSort (· ≤ ·)
  teamNames.foldl
    (fun tr teamName =>
      let storedTeam := lookupD cfg.teams teamName zeroTeamConfig
      let r := getExcludedUsers teamName cfg.members
        storedTeam.codeReviewAssignment.excludedMembers
        cfg.excludeCRAFromAllTeams
      let tr := tr ++ r.2
      if dryRun then tr
      else if E (Ev.updateReview storedTeam.id) then
        tr ++ [Ev.updateReview storedTeam.id]
      else tr ++ [Ev.updateReview storedTeam.id, Ev.reviewError teamName])
    []

/-! ### `SyncTeams` after the remote fetch (lines 259–362)

The upstream snapshot (`GetCurrentConfig`, lines 253–257) is passed in as
`upstreamCfg`; a fetch failure aborts before this logic runs. The two
confirmation prompts are oracle parameters (`Except Unit Bool`, an error
modelling a prompt I/O failure), bypassed when `force` is set. -/
def syncTeamsCore (mapIter : List String → List String) (E : Ev → Bool)
    (localCfg upstreamCfg : Config) (force dryRun : Bool)
    (confirmMembers confirmCRA : Except Unit Bool) :
    Except Unit (Config × List Ev) :=
  let teamChanges := diffPass localCfg upstreamCfg
  let step1 : Except Unit (Config × List Ev) :=
    if teamChanges.length ≠ 0 then
      match (if force then Except.ok true else confirmMembers) with
      | .error e => .error e
      | .ok yes =>
        if yes then .ok (applyPass mapIter E dryRun localCfg teamChanges)
        else .ok (localCfg, [])
    else .ok (localCfg, [])
  match step1 with
  | .error e => .error e
  | .ok acc =>
    match (if force then Except.ok true else confirmCRA) with
    | .error e => .error e
    | .ok yes =>
      if yes then .ok (acc.1, acc.2 ++ policyPass E dryRun acc.1)
      else .ok (acc.1, acc.2)

/-! ### `slug` -/

/-- Whether a character matches the character class `[a-z0-9]`. -/
def slugAllowed (c : Char) : Bool :=
  ('a' ≤ c ∧ c ≤ 'z') ∨ ('0' ≤ c ∧ c ≤ '9')

/-- `regexp.MustCompile("[^a-z0-9]+").ReplaceAllString(s, "-")` on a
character list: each maximal run of characters outside `[a-z0-9]` becomes
one `'-'`. The flag records whether the previous character was inside such
a run. -/
def replaceRunsAux (inRun : Bool) : List Char → List Char
  | [] => []
  | c :: cs =>
    if slugAllowed c then c :: replaceRunsAux false cs
    else if inRun then replaceRunsAux true cs
    else '-' :: replaceRunsAux true cs

/-- The full regex replacement (no run in progress initially). -/
def replaceRuns (l : List Char) : List Char :=
  replaceRunsAux false l

/-- `strings.Trim(s, "-")`: drop leading and trailing `'-'` characters. -/
def trimDashes (l : List Char) : List Char :=
  ((l.dropWhile (fun c => c = '-')).reverse.dropWhile (fun c => c = '-')).reverse

/-- `strings.ToLower` on one character. Go lowercases all Unicode; the
ASCII mapping is modelled, which agrees with Go on the slug output
alphabet `[a-z0-9-]` (every character outside `[a-z0-9]` after lowering is
collapsed by the regex replacement either way). -/
def lowerChar (c : Char) : Char :=
  if 'A' ≤ c ∧ c ≤ 'Z' then Char.ofNat (c.toNat + 32) else c

/-- `slug`: lowercase, replace runs of `[^a-z0-9]+` with `-`, trim `-`. -/
def slug (s : String) : String :=
  ⟨trimDashes (replaceRuns (s.data.map lowerChar))⟩

/-! ### Paginated fetch (`GetCurrentConfig`, lines 53–158)

The remote GraphQL endpoint is modelled by the full organization data plus
arbitrary page-size choices ("regardless of how page boundaries fall");
the opaque cursors are modelled as element offsets into the respective
collections. -/

/-- A `teamMember` node: opaque ID (modelled as `Nat`), login, name. -/
structure GoTeamMember where
  id : Nat
  login : String
  name : String
deriving DecidableEq, Repr

/-- One remote team with its full (un-paginated) member list. -/
structure RemoteTeam where
  id : Nat
  name : String
  reviewRequestDelegationEnabled : Bool
  reviewRequestDelegationAlgorithm : String
  reviewRequestDelegationMemberCount : Int
  reviewRequestDelegationNotifyTeam : Bool
  members : List GoTeamMember
deriving DecidableEq, Repr

/-- The remote organization together with its pagination behaviour:
`tSize` chooses the team page size served at a given team offset, `mSize`
the member page size served for a given team id at a given member offset. -/
structure Remote where
  teams : List RemoteTeam
  tSize : Nat → Nat
  mSize : Nat → Nat → Nat

/-- A GraphQL `PageInfo`. -/
structure PageInfo where
  endCursor : Nat
  hasNextPage : Bool
deriving DecidableEq, Repr

/-- A page of `teamMember` nodes. -/
structure MembersPage where
  nodes : List GoTeamMember
  pageInfo : PageInfo
deriving DecidableEq, Repr

/-- A `team` node as returned by one query: one page of its members plus
its scalar fields. -/
structure GoTeam where
  members : MembersPage
  id : Nat
  name : String
  reviewRequestDelegationEnabled : Bool
  reviewRequestDelegationAlgorithm : String
  reviewRequestDelegationMemberCount : Int
  reviewRequestDelegationNotifyTeam : Bool
deriving DecidableEq, Repr

/-- A page of `team` nodes. -/
structure TeamsPage where
  nodes : List GoTeam
  pageInfo : PageInfo
deriving DecidableEq, Repr

/-- A `queryResult`. -/
structure QueryResult where
  teams : TeamsPage
deriving DecidableEq, Repr

/-- The two cursor variables of `query` (`nil` = first page). -/
structure Vars where
  teamsCursor : Option Nat
  membersCursor : Option Nat
deriving DecidableEq, Repr

/-- One page of a collection starting at `off` with requested size
`size`, with its `PageInfo`. -/
def pageOf {α : Type} (l : List α) (off size : Nat) : List α × PageInfo :=
  let chunk := (l.drop off).take size
  (chunk,
   { endCursor := off + chunk.length
     hasNextPage := off + chunk.length < l.length })

/-- The `team` node served for `rt` under the current member cursor. -/
def teamNodeOf (R : Remote) (v : Vars) (rt : RemoteTeam) : GoTeam :=
  let m0 := v.membersCursor.getD 0
  let p := pageOf rt.members m0 (R.mSize rt.id m0)
  { members := { nodes := p.1, pageInfo := p.2 }
    id := rt.id
    name := rt.name
    reviewRequestDelegationEnabled := rt.reviewRequestDelegationEnabled
    reviewRequestDelegationAlgorithm := rt.reviewRequestDelegationAlgorithm
    reviewRequestDelegationMemberCount := rt.reviewRequestDelegationMemberCount
    reviewRequestDelegationNotifyTeam := rt.reviewRequestDelegationNotifyTeam }

/-- `tm.query(ctx, variables)`: serve the team page at the team cursor,
each team node carrying its member page at the member cursor. -/
def queryRemote (R : Remote) (v : Vars) : QueryResult :=
  let t0 := v.teamsCursor.getD 0
  let p := pageOf R.teams t0 (R.tSize t0)
  { teams := { nodes := p.1.map (teamNodeOf R v), pageInfo := p.2 } }

/-- `Teams.WithID`: first node with the given ID, or an error. -/
def withID (nodes : List GoTeam) (id : Nat) : Except Unit GoTeam :=
  match nodes.find? (fun n => n.id == id) with
  | some n => .ok n
  | none => .error ()

/-- The `config.CodeReviewAssignment` built for a fresh team node (lines
81–89): populated only when review delegation is enabled, otherwise the
zero value. -/
def craOfNode (t : GoTeam) : CodeReviewAssignment :=
  if t.reviewRequestDelegationEnabled then
    { algorithm := t.reviewRequestDelegationAlgorithm
      enabled := t.reviewRequestDelegationEnabled
      notifyTeam := t.reviewRequestDelegationNotifyTeam
      teamMemberCount := t.reviewRequestDelegationMemberCount
      excludedMembers := [] }
  else zeroTeamConfig.codeReviewAssignment

/-- The inner member loop (lines 97–127) for team `t`: consume the member
page of `t` in `innerResult` (which is the page result `result` on the
first iteration, a requery at the member cursor afterwards), accumulate
the logins into `teamCfg` (sorted) and the identities into `c.members`,
store the team, and requery while more member pages remain. The loop is
fueled; `none` models fuel exhaustion and is never reached with enough
fuel. -/
def memberLoop (R : Remote) (fuel : Nat) (t : GoTeam) (strTeamName : String)
    (result : QueryResult) (v : Vars) (teamCfg : TeamConfig) (c : Config)
    (requeryMembers : Bool) : Except Unit (Config × Vars) :=
  match fuel with
  | 0 => .error ()
  | fuel + 1 =>
    let innerResult := if requeryMembers then queryRemote R v else result
    match withID innerResult.teams.nodes t.id with
    | .error e => .error e
    | .ok teamNode =>
      let teamCfg := { teamCfg with
        members := teamCfg.members ++ teamNode.members.nodes.map GoTeamMember.login }
      let c := { c with
        members := teamNode.members.nodes.foldl
          (fun acc (m : GoTeamMember) =>
            insertA acc m.login { id := toString m.id, name := m.name })
          c.members }
      let teamCfg := { teamCfg with
        members := teamCfg.members.insertionSort (· ≤ ·) }
      let c := { c with teams := insertA c.teams strTeamName teamCfg }
      if ¬ teamNode.members.pageInfo.hasNextPage then .ok (c, v)
      else
        memberLoop R fuel t strTeamName result
          { v with membersCursor := some teamNode.members.pageInfo.endCursor }
          teamCfg c true

/-- The loop over the team nodes of one page (lines 77–128): build or look
up the team's config (fresh teams get the remote ID and the review
assignment of the node), then run the member loop. -/
def teamsLoop (R : Remote) (fuel : Nat) (nodes : List GoTeam)
    (result : QueryResult) (v : Vars) (c : Config) :
    Except Unit (Config × Vars) :=
  match nodes with
  | [] => .ok (c, v)
  | t :: rest =>
    let strTeamName := t.name
    let teamCfg :=
      match lookupA c.teams strTeamName with
      | some tc => tc
      | none =>
        { id := toString t.id, codeReviewAssignment := craOfNode t, members := [] }
    match memberLoop R fuel t strTeamName result v teamCfg c false with
    | .error e => .error e
    | .ok r => teamsLoop R fuel rest result r.2 r.1

/-- The outer page loop (lines 68–136): process the current team page;
when another page exists, advance the team cursor to the page's end cursor
and clear the member cursor before requerying. -/
def outerLoop (R : Remote) (fuel : Nat) (result : QueryResult) (v : Vars)
    (c : Config) : Except Unit Config :=
  match fuel with
  | 0 => .error ()
  | fuel + 1 =>
    match teamsLoop R fuel result.teams.nodes result v c with
    | .error e => .error e
    | .ok r =>
      if ¬ result.teams.pageInfo.hasNextPage then .ok r.1
      else
        let v : Vars :=
          { teamsCursor := some result.teams.pageInfo.endCursor
            membersCursor := none }
        outerLoop R fuel (queryRemote R v) v r.1

/-- Fuel that suffices for any run over `R` (at most one outer iteration
per team plus one, and per team at most one inner iteration per member
plus one). -/
def fuelOf (R : Remote) : Nat :=
  R.teams.length + (R.teams.map (fun t => t.members.length)).sum + 2

/-- `GetCurrentConfig`: the initial empty snapshot, the first query with
both cursors at the start, and the page loops. -/
def getCurrentConfig (owner : String) (R : Remote) : Except Unit Config :=
  let c : Config :=
    { organization := owner, teams := [], members := [], excludeCRAFromAllTeams := [] }
  let v : Vars := { teamsCursor := none, membersCursor := none }
  outerLoop R (fuelOf R) (queryRemote R v) v c

/-! ## Helper lemmas -/

theorem lookupA_insertA_self {α : Type} (m : List (String × α)) (k : String)
    (v : α) : lookupA (insertA m k v) k = some v := by
  induction m with
  | nil => simp [insertA, lookupA]
  | cons p rest ih =>
    obtain ⟨k', v'⟩ := p
    by_cases h : k' = k
    · simp [insertA, h, lookupA]
    · simp [insertA, h, lookupA, ih]

theorem lookupA_insertA_ne {α : Type} (m : List (String × α)) (k k' : String)
    (v : α) (h : ¬ k = k') : lookupA (insertA m k v) k' = lookupA m k' := by
  induction m with
  | nil => simp [insertA, lookupA, h]
  | cons p rest ih =>
    obtain ⟨k₀, v₀⟩ := p
    by_cases h0 : k₀ = k
    · subst h0
      simp [insertA, lookupA, h]
    · by_cases h1 : k₀ = k'
      · subst h1
        simp [insertA, h0, lookupA]
      · simp [insertA, h0, lookupA, h1, ih]

theorem insertA_of_not_mem {α : Type} (m : List (String × α)) (k : String)
    (v : α) (h : ¬ k ∈ m.map Prod.fst) : insertA m k v = m ++ [(k, v)] := by
  induction m with
  | nil => simp [insertA]
  | cons p rest ih =>
    obtain ⟨k₀, v₀⟩ := p
    simp only [List.map_cons, List.mem_cons] at h
    push_neg at h
    simp [insertA, Ne.symm h.1, ih h.2]

theorem map_fst_insertA_of_mem {α : Type} (m : List (String × α)) (k : String)
    (v : α) (h : k ∈ m.map Prod.fst) :
    (insertA m k v).map Prod.fst = m.map Prod.fst := by
  induction m with
  | nil => simp at h
  | cons p rest ih =>
    obtain ⟨k₀, v₀⟩ := p
    by_cases h0 : k₀ = k
    · simp [insertA, h0]
    · simp only [List.map_cons, List.mem_cons] at h
      rcases h with h | h

      · exact absurd h.symm h0
      · simp [insertA, h0, ih h]

theorem lookupA_eq_none_of_not_mem {α : Type} (m : List (String × α))
    (k : String) (h : ¬ k ∈ m.map Prod.fst) : lookupA m k = none := by
  induction m with
  | nil => rfl
  | cons p rest ih =>
    obtain ⟨k₀, v₀⟩ := p
    simp only [List.map_cons, List.mem_cons] at h
    push_neg at h
    simp [lookupA, Ne.symm h.1, ih h.2]

theorem mem_map_fst_of_lookupA {α : Type} {m : List (String × α)}
    {k : String} {v : α} (h : lookupA m k = some v) : k ∈ m.map Prod.fst := by
  induction m with
  | nil => simp [lookupA] at h
  | cons p rest ih =>
    obtain ⟨k₀, v₀⟩ := p
    by_cases h0 : k₀ = k
    · simp [h0]
    · simp only [lookupA, h0, if_false] at h
      simp [ih h]

theorem toFinset_setInsert (l : List String) (x : String) :
    (setInsert l x).toFinset = insert x l.toFinset := by
  by_cases h : x ∈ l
  · simp [setInsert, h, Finset.insert_eq_self.mpr (List.mem_toFinset.mpr h)]
  · simp only [setInsert, if_neg h, List.toFinset_append]
    ext y
    simp
    tauto

theorem nodup_setInsert (l : List String) (x : String) (h : l.Nodup) :
    (setInsert l x).Nodup := by
  by_cases hx : x ∈ l
  · simpa [setInsert, hx] using h
  · simp [setInsert, hx, List.nodup_append, h]

theorem mem_setInsert (l : List String) (x y : String) :
    y ∈ setInsert l x ↔ y ∈ l ∨ y = x := by
  by_cases h : x ∈ l
  · simp only [setInsert, if_pos h]
    constructor
    · exact Or.inl
    · rintro (hy | rfl)
      · exact hy
      · exact h
  · simp [setInsert, h]

theorem toFinset_setRemove (l : List String) (x : String) :
    (setRemove l x).toFinset = l.toFinset.erase x := by
  ext y
  by_cases h : y = x <;> simp [setRemove, h]

theorem nodup_setRemove (l : List String) (x : String) (h : l.Nodup) :
    (setRemove l x).Nodup :=
  h.filter _

theorem toFinset_foldl_setInsert (l : List String) (s : List String) :
    (l.foldl setInsert s).toFinset = s.toFinset ∪ l.toFinset := by
  induction l generalizing s with
  | nil => simp
  | cons x xs ih =>
    simp only [List.foldl_cons, ih, toFinset_setInsert, List.toFinset_cons]
    ext y
    simp only [Finset.mem_union, Finset.mem_insert, List.mem_toFinset]
    tauto

theorem nodup_foldl_setInsert (l : List String) (s : List String)
    (h : s.Nodup) : (l.foldl setInsert s).Nodup := by
  induction l generalizing s with
  | nil => exact h
  | cons x xs ih => exact ih _ (nodup_setInsert _ _ h)

theorem toFinset_foldl_setRemove (l : List String) (s : List String) :
    (l.foldl setRemove s).toFinset = s.toFinset \ l.toFinset := by
  induction l generalizing s with
  | nil => simp
  | cons x xs ih =>
    simp only [List.foldl_cons, ih, toFinset_setRemove, List.toFinset_cons]
    ext y
    simp
    tauto

theorem nodup_foldl_setRemove (l : List String) (s : List String)
    (h : s.Nodup) : (l.foldl setRemove s).Nodup := by
  induction l generalizing s with
  | nil => exact h
  | cons x xs ih => exact ih _ (nodup_setRemove _ _ h)

theorem mem_notIn {a b : List String} {x : String} :
    x ∈ notIn a b ↔ x ∈ a ∧ ¬ x ∈ b := by
  simp [notIn]

/-! ## C4 -/

/-- C4: the derived sets `toAdd = localMembers − remoteMembers` and
`toRemove = remoteMembers − localMembers` are disjoint, and
`(remoteMembers ∪ toAdd) \ toRemove` equals `localMembers` as a set. -/
theorem diff_sets_disjoint_and_reconcile (localMembers remoteMembers : List String) :
    Disjoint (notIn localMembers remoteMembers).toFinset
        (notIn remoteMembers localMembers).toFinset ∧
      (remoteMembers.toFinset ∪ (notIn localMembers remoteMembers).toFinset) \
          (notIn remoteMembers localMembers).toFinset
        = localMembers.toFinset := by
  constructor
  · rw [Finset.disjoint_left]
    intro x hx hy
    rw [List.mem_toFinset, mem_notIn] at hx hy
    exact hy.2 hx.1
  · ext x
    simp only [Finset.mem_sdiff, Finset.mem_union, List.mem_toFinset, mem_notIn]
    tauto

/-! ## C6 -/

/-- C6: `getExcludedUsers` returns exactly the deduplicated set of
directory IDs of the resolvable logins from the per-team exclusion list
and the org-wide exclusion list; a per-team login absent from the member
directory is reported as an error and skipped, an org-wide login absent
from the directory is skipped silently, and neither case aborts the
resolution or appears in the result. -/
theorem getExcludedUsers_resolves_and_skips (teamName : String)
    (members : List (String × User)) (excT : List ExcludedMember)
    (excA : List String) :
    (getExcludedUsers teamName members excT excA).1.toFinset
      = (excT.filterMap (fun em => (lookupA members em.login).map User.id)).toFinset
        ∪ (excA.filterMap (fun l => (lookupA members l).map User.id)).toFinset
    ∧ (getExcludedUsers teamName members excT excA).1.Nodup
    ∧ (getExcludedUsers teamName members excT excA).2
      = (excT.filter (fun em => (lookupA members em.login).isNone)).map
          (fun em => Ev.lookupError em.login teamName) := by
  have h1 : ∀ acc : List String × List Ev,
      ((excT.foldl (fun acc em =>
          match lookupA members em.login with
          | none => (acc.1, acc.2 ++ [Ev.lookupError em.login teamName])
          | some user => (setInsert acc.1 user.id, acc.2)) acc).1.toFinset
        = acc.1.toFinset
          ∪ (excT.filterMap (fun em => (lookupA members em.login).map User.id)).toFinset)
      ∧ (acc.1.Nodup →
        (excT.foldl (fun acc em =>
          match lookupA members em.login with
          | none => (acc.1, acc.2 ++ [Ev.lookupError em.login teamName])
          | some user => (setInsert acc.1 user.id, acc.2)) acc).1.Nodup)
      ∧ (excT.foldl (fun acc em =>
          match lookupA members em.login with
          | none => (acc.1, acc.2 ++ [Ev.lookupError em.login teamName])
          | some user => (setInsert acc.1 user.id, acc.2)) acc).2
        = acc.2 ++ (excT.filter (fun em => (lookupA members em.login).isNone)).map
            (fun em => Ev.lookupError em.login teamName) := by
    induction excT with
    | nil => intro acc; simp
    | cons em rest ih =>
      intro acc
      cases h : lookupA members em.login with
      | none =>
        obtain ⟨ih1, ih2, ih3⟩ := ih ((acc.1, acc.2 ++ [Ev.lookupError em.login teamName]))
        refine ⟨?_, ?_, ?_⟩
        · simpa [List.foldl_cons, h] using ih1
        · intro hn
          simpa [List.foldl_cons, h] using ih2 hn
        · simp only [List.foldl_cons, h] at ih3 ⊢
          simp [ih3, h]
      | some user =>
        obtain ⟨ih1, ih2, ih3⟩ := ih ((setInsert acc.1 user.id, acc.2))
        refine ⟨?_, ?_, ?_⟩
        · simp only [List.foldl_cons, h] at ih1 ⊢
          rw [ih1, toFinset_setInsert]
          ext y
          simp only [Finset.mem_union, Finset.mem_insert, List.mem_toFinset,
            List.filterMap_cons, h, Option.map_some']
          simp
          tauto
        · intro hn
          simp only [List.foldl_cons, h] at ih2 ⊢
          exact ih2 (nodup_setInsert _ _ hn)
        · simp only [List.foldl_cons, h] at ih3 ⊢
          simp [ih3, h]
  have h2 : ∀ acc : List String × List Ev,
      ((excA.foldl (fun acc login =>
          match lookupA members login with
          | none => acc
          | some user => (setInsert acc.1 user.id, acc.2)) acc).1.toFinset
        = acc.1.toFinset
          ∪ (excA.filterMap (fun l => (lookupA members l).map User.id)).toFinset)
      ∧ (acc.1.Nodup →
        (excA.foldl (fun acc login =>
          match lookupA members login with
          | none => acc
          | some user => (setInsert acc.1 user.id, acc.2)) acc).1.Nodup)
      ∧ (excA.foldl (fun acc login =>
          match lookupA members login with
          | none => acc
          | some user => (setInsert acc.1 user.id, acc.2)) acc).2
        = acc.2 := by
    induction excA with
    | nil => intro acc; simp
    | cons login rest ih =>
      intro acc
      cases h : lookupA members login with
      | none =>
        obtain ⟨ih1, ih2, ih3⟩ := ih acc
        refine ⟨?_, ?_, ?_⟩
        · simp only [List.foldl_cons, h] at ih1 ⊢
          rw [ih1]
          ext y
          simp only [Finset.mem_union, List.mem_toFinset, List.filterMap_cons, h]
          tauto
        · intro hn
          simpa [List.foldl_cons, h] using ih2 hn
        · simpa [List.foldl_cons, h] using ih3
      | some user =>
        obtain ⟨ih1, ih2, ih3⟩ := ih ((setInsert acc.1 user.id, acc.2))
        refine ⟨?_, ?_, ?_⟩
        · simp only [List.foldl_cons, h] at ih1 ⊢
          rw [ih1, toFinset_setInsert]
          ext y
          simp only [Finset.mem_union, Finset.mem_insert, List.mem_toFinset,
            List.filterMap_cons, h, Option.map_some']
          simp
          tauto
        · intro hn
          simp only [List.foldl_cons, h] at ih2 ⊢
          exact ih2 (nodup_setInsert _ _ hn)
        · simpa [List.foldl_cons, h] using ih3
  obtain ⟨h11, h12, h13⟩ := h1 ([], [])
  obtain ⟨h21, h22, h23⟩ := h2 (excT.foldl (fun acc em =>
      match lookupA members em.login with
      | none => (acc.1, acc.2 ++ [Ev.lookupError em.login teamName])
      | some user => (setInsert acc.1 user.id, acc.2)) ([], []))
  refine ⟨?_, ?_, ?_⟩
  · rw [getExcludedUsers, h21, h11]
    simp
  · rw [getExcludedUsers]
    exact h22 (h12 List.nodup_nil)
  · rw [getExcludedUsers, h23, h13]
    simp

/-! ## C8 -/

/-- C8: when the operator denies the confirmation prompts, `SyncTeams`
treats the denial as non-error: no change is applied (the event trace is
empty) and the local model is returned unchanged with a nil error. -/
theorem syncTeams_denial_is_noop (mapIter : List String → List String)
    (E : Ev → Bool) (localCfg upstreamCfg : Config) (dryRun : Bool) :
    syncTeamsCore mapIter E localCfg upstreamCfg false dryRun
      (Except.ok false) (Except.ok false) = Except.ok (localCfg, []) := by
  unfold syncTeamsCore
  by_cases h : (diffPass localCfg upstreamCfg).length ≠ 0 <;> simp [h]

/-! ## C1 -/

theorem lookupA_of_mem_nodup {α : Type} {m : List (String × α)} {k : String}
    {v : α} (hnd : (m.map Prod.fst).Nodup) (h : (k, v) ∈ m) :
    lookupA m k = some v := by
  induction m with
  | nil => simp at h
  | cons p rest ih =>
    obtain ⟨k₀, v₀⟩ := p
    simp only [List.map_cons, List.nodup_cons] at hnd
    rcases List.mem_cons.mp h with h | h
    · rw [Prod.mk.injEq] at h
      obtain ⟨h1, h2⟩ := h
      subst h1
      subst h2
      simp [lookupA]
    · have hk : ¬ k₀ = k := by
        intro hk
        subst hk
        exact hnd.1 (List.mem_map.mpr ⟨(k₀, v), h, rfl⟩)
      simp [lookupA, hk, ih hnd.2 h]

theorem diffTeam_none_of_eq_except (lt up : TeamConfig)
    (heq : clearExcluded lt = clearExcluded up)
    (hup : up.codeReviewAssignment.excludedMembers = []) :
    diffTeam lt up = none := by
  have h : clearExcluded lt = up := by
    rw [heq]
    obtain ⟨i, cra, mem⟩ := up
    obtain ⟨alg, en, nt, cnt, exm⟩ := cra
    simp only at hup
    simp [clearExcluded, hup]
  simp [diffTeam, h]

theorem mem_diffPass {upstreamCfg : Config}
    (ts : List (String × TeamConfig)) (p : String × TeamChange)
    (h : p ∈ ts.foldr
      (fun q acc =>
        match diffTeam q.2 (lookupD upstreamCfg.teams q.1 zeroTeamConfig) with
        | some ch => (q.1, ch) :: acc
        | none => acc) []) :
    ∃ lt, (p.1, lt) ∈ ts ∧
      diffTeam lt (lookupD upstreamCfg.teams p.1 zeroTeamConfig) = some p.2 := by
  induction ts with
  | nil => simp at h
  | cons q rest ih =>
    simp only [List.foldr_cons] at h
    cases hd : diffTeam q.2 (lookupD upstreamCfg.teams q.1 zeroTeamConfig) with
    | none =>
      rw [hd] at h
      obtain ⟨lt, h1, h2⟩ := ih h
      exact ⟨lt, List.mem_cons_of_mem _ h1, h2⟩
    | some ch =>
      rw [hd] at h
      rcases List.mem_cons.mp h with h | h
      · subst h
        exact ⟨q.2, List.mem_cons_self _ _, hd⟩
      · obtain ⟨lt, h1, h2⟩ := ih h
        exact ⟨lt, List.mem_cons_of_mem _ h1, h2⟩

/-- C1: for a local team whose definition equals its remote counterpart in
every field except `CodeReviewAssignment.ExcludedMembers`, the diff pass
of `SyncTeams` records no pending change for that team: no entry in the
change map (and hence no toAdd/toRemove sets). `hup` is the
`GetCurrentConfig` invariant that a fetched snapshot never populates
`ExcludedMembers`; `hnd` is the key uniqueness of the Go team map. -/
theorem diffPass_ignores_excludedMembers (localCfg upstreamCfg : Config)
    (name : String) (lt : TeamConfig)
    (hnd : (localCfg.teams.map Prod.fst).Nodup)
    (hlt : lookupA localCfg.teams name = some lt)
    (heq : clearExcluded lt
      = clearExcluded (lookupD upstreamCfg.teams name zeroTeamConfig))
    (hup : (lookupD upstreamCfg.teams name
      zeroTeamConfig).codeReviewAssignment.excludedMembers = []) :
    lookupA (diffPass localCfg upstreamCfg) name = none := by
  apply lookupA_eq_none_of_not_mem
  intro hmem
  obtain ⟨p, hp, hp1⟩ := List.mem_map.mp hmem
  obtain ⟨lt', hmem', hdt⟩ := mem_diffPass localCfg.teams p hp
  rw [hp1] at hmem' hdt
  have : lookupA localCfg.teams name = some lt' := lookupA_of_mem_nodup hnd hmem'
  rw [hlt] at this
  injection this with this
  subst this
  rw [diffTeam_none_of_eq_except lt _ heq hup] at hdt
  exact Option.noConfusion hdt

/-- Witness for C1: a concrete local/remote pair equal in all fields
except `excludedMembers` yields no entry in the change map. -/
theorem diffPass_ignores_excludedMembers_witness :
    lookupA (diffPass
      { organization := "acme"
        teams := [("ops",
          { id := "T1"
            codeReviewAssignment :=
              { algorithm := "LOAD_BALANCE", enabled := true
                notifyTeam := false, teamMemberCount := 2
                excludedMembers := [{ login := "bob" }] }
            members := ["a", "b"] })]
        members := []
        excludeCRAFromAllTeams := [] }
      { organization := "acme"
        teams := [("ops",
          { id := "T1"
            codeReviewAssignment :=
              { algorithm := "LOAD_BALANCE", enabled := true
                notifyTeam := false, teamMemberCount := 2
                excludedMembers := [] }
            members := ["a", "b"] })]
        members := []
        excludeCRAFromAllTeams := [] }) "ops" = none :=
  diffPass_ignores_excludedMembers _ _ "ops"
    { id := "T1"
      codeReviewAssignment :=
        { algorithm := "LOAD_BALANCE", enabled := true
          notifyTeam := false, teamMemberCount := 2
          excludedMembers := [{ login := "bob" }] }
      members := ["a", "b"] }
    (by decide) (by decide) (by decide) (by decide)

/-! ## C2

The recomputation (lines 307–321) rebuilds the member list through a Go
`map[string]struct{}` and stores the map's enumeration WITHOUT sorting
it; Go map iteration order is unspecified, so the stored list is some
permutation of the computed set, not necessarily sorted. The claim's
set-level formula holds; the "stored back sorted" part does not. -/

/-- Counterexample to C2 as stated: the spec's own end-to-end scenario
(local `ops = {a,b}`, remote `ops = {b,c}`, confirmed, live run with every
remote call succeeding) under the admissible map iteration order
`List.reverse` stores the member list `["b", "a"]`, which is not
sorted. -/
theorem applyTeam_sorted_counterexample :
    (syncTeamsCore List.reverse (fun _ => true)
        { organization := "acme"
          teams := [("ops",
            { id := "T1"
              codeReviewAssignment :=
                { algorithm := "", enabled := false, notifyTeam := false
                  teamMemberCount := 0, excludedMembers := [] }
              members := ["a", "b"] })]
          members := []
          excludeCRAFromAllTeams := [] }
        { organization := "acme"
          teams := [("ops",
            { id := "T1"
              codeReviewAssignment :=
                { algorithm := "", enabled := false, notifyTeam := false
                  teamMemberCount := 0, excludedMembers := [] }
              members := ["b", "c"] })]
          members := []
          excludeCRAFromAllTeams := [] }
        true false (Except.ok true) (Except.ok true)).map
        (fun r => (lookupD r.1.teams "ops" zeroTeamConfig).members)
      = Except.ok ["b", "a"]
    ∧ ¬ List.Sorted (· ≤ ·) ["b", "a"] := by
  constructor
  · rfl
  · simp only [List.sorted_cons]
    intro h
    have hba := h.1 "a" (by simp)
    rw [String.le_iff_toList_le] at hba
    exact absurd hba (by decide)

/-- C2 (amended): for every team with a confirmed pending change, after
the apply attempt (successful or dry-run — `applyPass` invokes this same
recomputation in both cases) the in-memory local team's member list is
recomputed as the set `(original ∪ toAdd) − toRemove` and stored back as
a duplicate-free list in the unspecified map-iteration order (NOT
necessarily sorted), regardless of whether the remote call actually ran.
`hdisj` holds for every pending change the diff pass produces. -/
theorem applyTeam_recomputes_member_set (mapIter : List String → List String)
    (hIter : ∀ l : List String, (mapIter l).Perm l)
    (cfg : Config) (teamName : String) (ch : TeamChange)
    (hdisj : ∀ x ∈ ch.add, ¬ x ∈ ch.remove) :
    (lookupD (applyTeam mapIter cfg teamName ch).teams teamName
        zeroTeamConfig).members.toFinset
      = ((lookupD cfg.teams teamName zeroTeamConfig).members.toFinset
          ∪ ch.add.toFinset) \ ch.remove.toFinset
    ∧ (lookupD (applyTeam mapIter cfg teamName ch).teams teamName
        zeroTeamConfig).members.Nodup := by
  have hs :
      (lookupD (applyTeam mapIter cfg teamName ch).teams teamName
        zeroTeamConfig).members
      = mapIter (ch.add.foldl setInsert (ch.remove.foldl setRemove
          ((lookupD cfg.teams teamName zeroTeamConfig).members.foldl
            setInsert []))) := by
    simp only [applyTeam, lookupD, lookupA_insertA_self, Option.getD_some]
  rw [hs]
  constructor
  · rw [List.toFinset_eq_of_perm _ _ (hIter _), toFinset_foldl_setInsert,
      toFinset_foldl_setRemove, toFinset_foldl_setInsert]
    ext x
    simp only [Finset.mem_union, Finset.mem_sdiff, List.mem_toFinset,
      List.toFinset_nil, Finset.not_mem_empty, false_or]
    by_cases hx : x ∈ ch.add
    · have := hdisj x hx
      tauto
    · tauto
  · exact ((hIter _).nodup_iff).mpr
      (nodup_foldl_setInsert _ _ (nodup_foldl_setRemove _ _
        (nodup_foldl_setInsert _ _ List.nodup_nil)))

/-- Witness for the amended C2 at the spec's scenario with the identity
iteration order. -/
theorem applyTeam_recomputes_member_set_witness :
    (lookupD (applyTeam (fun l => l)
        { organization := "acme"
          teams := [("ops",
            { id := "T1"
              codeReviewAssignment :=
                { algorithm := "", enabled := false, notifyTeam := false
                  teamMemberCount := 0, excludedMembers := [] }
              members := ["a", "b"] })]
          members := []
          excludeCRAFromAllTeams := [] } "ops"
        { add := ["a"], remove := ["c"] }).teams "ops"
        zeroTeamConfig).members.toFinset
      = ((lookupD
          ({ organization := "acme"
             teams := [("ops",
               ({ id := "T1"
                  codeReviewAssignment :=
                    { algorithm := "", enabled := false, notifyTeam := false
                      teamMemberCount := 0, excludedMembers := [] }
                  members := ["a", "b"] } : TeamConfig))]
             members := []
             excludeCRAFromAllTeams := [] } : Config).teams "ops"
            zeroTeamConfig).members.toFinset
          ∪ (["a"] : List String).toFinset) \ (["c"] : List String).toFinset
    ∧ (lookupD (applyTeam (fun l => l)
        { organization := "acme"
          teams := [("ops",
            { id := "T1"
              codeReviewAssignment :=
                { algorithm := "", enabled := false, notifyTeam := false
                  teamMemberCount := 0, excludedMembers := [] }
              members := ["a", "b"] })]
          members := []
          excludeCRAFromAllTeams := [] } "ops"
        { add := ["a"], remove := ["c"] }).teams "ops"
        zeroTeamConfig).members.Nodup :=
  applyTeam_recomputes_member_set (fun l => l) (fun l => List.Perm.refl l)
    _ "ops" { add := ["a"], remove := ["c"] } (by decide)

/-! ## C3 -/

theorem callSeq_allOk (cs : List Ev) : callSeq (fun _ => true) cs = (cs, true) := by
  induction cs with
  | nil => rfl
  | cons c rest ih => simp [callSeq, ih]

theorem syncTeamMembers_allOk (teamName : String) (add remove : List String) :
    syncTeamMembers (fun _ => true) teamName add remove
      = (add.map (fun u => Ev.add teamName u)
          ++ remove.map (fun u => Ev.remove teamName u), true) := by
  simp [syncTeamMembers, callSeq_allOk]

theorem applyPass_dry (mapIter : List String → List String) (E : Ev → Bool)
    (changes : List (String × TeamChange)) :
    ∀ cfg : Config,
      applyPass mapIter E true cfg changes
        = (changes.foldl (fun c p => applyTeam mapIter c p.1 p.2) cfg, []) := by
  induction changes with
  | nil => intro cfg; rfl
  | cons q rest ih =>
    intro cfg
    simp only [applyPass, List.foldl_cons, if_true] at ih ⊢
    exact ih (applyTeam mapIter cfg q.1 q.2)

theorem applyFold_live_fst (mapIter : List String → List String)
    (changes : List (String × TeamChange)) :
    ∀ acc : Config × List Ev,
      (changes.foldl (fun acc p =>
          if false then (applyTeam mapIter acc.1 p.1 p.2, acc.2)
          else
            let r := syncTeamMembers (fun _ => true) p.1 p.2.add p.2.remove
            if r.2 then (applyTeam mapIter acc.1 p.1 p.2, acc.2 ++ r.1)
            else (acc.1, acc.2 ++ r.1 ++ [Ev.syncError p.1])) acc).1
        = changes.foldl (fun c p => applyTeam mapIter c p.1 p.2) acc.1 := by
  induction changes with
  | nil => intro acc; rfl
  | cons q rest ih =>
    intro acc
    rw [List.foldl_cons, List.foldl_cons, ih]
    congr 1
    simp [syncTeamMembers_allOk]

theorem applyPass_live_allOk (mapIter : List String → List String)
    (changes : List (String × TeamChange)) (cfg : Config) :
    (applyPass mapIter (fun _ => true) false cfg changes).1
      = changes.foldl (fun c p => applyTeam mapIter c p.1 p.2) cfg :=
  applyFold_live_fst mapIter changes (cfg, [])

theorem getExcludedUsers_no_mutation (teamName : String)
    (members : List (String × User)) (excT : List ExcludedMember)
    (excA : List String) :
    ∀ ev ∈ (getExcludedUsers teamName members excT excA).2,
      isMutation ev = false := by
  have h1 : ∀ acc : List String × List Ev,
      (∀ ev ∈ acc.2, isMutation ev = false) →
      ∀ ev ∈ (excT.foldl (fun acc em =>
          match lookupA members em.login with
          | none => (acc.1, acc.2 ++ [Ev.lookupError em.login teamName])
          | some user => (setInsert acc.1 user.id, acc.2)) acc).2,
        isMutation ev = false := by
    induction excT with
    | nil => intro acc hacc; exact hacc
    | cons em rest ih =>
      intro acc hacc
      cases h : lookupA members em.login with
      | none =>
        simp only [List.foldl_cons, h]
        apply ih
        intro ev hev
        rcases List.mem_append.mp hev with hev | hev
        · exact hacc ev hev
        · simp only [List.mem_singleton] at hev
          subst hev
          rfl
      | some user =>
        simp only [List.foldl_cons, h]
        exact ih _ hacc
  have h2 : ∀ acc : List String × List Ev,
      (∀ ev ∈ acc.2, isMutation ev = false) →
      ∀ ev ∈ (excA.foldl (fun acc login =>
          match lookupA members login with
          | none => acc
          | some user => (setInsert acc.1 user.id, acc.2)) acc).2,
        isMutation ev = false := by
    induction excA with
    | nil => intro acc hacc; exact hacc
    | cons login rest ih =>
      intro acc hacc
      cases h : lookupA members login with
      | none =>
        simp only [List.foldl_cons, h]
        exact ih _ hacc
      | some user =>
        simp only [List.foldl_cons, h]
        exact ih _ hacc
  intro ev hev
  exact h2 _ (h1 ([], []) (by simp)) ev hev

theorem policyPass_dry_no_mutation (E : Ev → Bool) (cfg : Config) :
    ∀ ev ∈ policyPass E true cfg, isMutation ev = false := by
  unfold policyPass
  have h : ∀ (names : List String) (tr : List Ev),
      (∀ ev ∈ tr, isMutation ev = false) →
      ∀ ev ∈ names.foldl (fun tr teamName =>
          let storedTeam := lookupD cfg.teams teamName zeroTeamConfig
          let r := getExcludedUsers teamName cfg.members
            storedTeam.codeReviewAssignment.excludedMembers
            cfg.excludeCRAFromAllTeams
          let tr := tr ++ r.2
          if true = true then tr
          else if E (Ev.updateReview storedTeam.id) then
            tr ++ [Ev.updateReview storedTeam.id]
          else tr ++ [Ev.updateReview storedTeam.id, Ev.reviewError teamName]) tr,
        isMutation ev = false := by
    intro names
    induction names with
    | nil => intro tr htr; exact htr
    | cons n rest ih =>
      intro tr htr
      simp only [List.foldl_cons, if_true]
      apply ih
      intro ev hev
      rcases List.mem_append.mp hev with hev | hev
      · exact htr ev hev
      · exact getExcludedUsers_no_mutation _ _ _ _ ev hev
  intro ev hev
  exact h _ [] (by simp) ev hev

/-- C3: with the same local config and the same confirmed pending
changes, a `dryRun` run of the apply passes updates the in-memory local
model identically to a live run in which every remote call succeeds,
while issuing zero remote mutation calls. -/
theorem dryRun_refines_live (mapIter : List String → List String)
    (localCfg upstreamCfg : Config) (force : Bool)
    (confirmMembers confirmCRA : Except Unit Bool) :
    (syncTeamsCore mapIter (fun _ => true) localCfg upstreamCfg force true
        confirmMembers confirmCRA).map Prod.fst
      = (syncTeamsCore mapIter (fun _ => true) localCfg upstreamCfg force false
          confirmMembers confirmCRA).map Prod.fst
    ∧ (match syncTeamsCore mapIter (fun _ => true) localCfg upstreamCfg force
          true confirmMembers confirmCRA with
       | .ok r => r.2.filter (fun ev => isMutation ev)
       | .error _ => []) = [] := by
  have hpol : ∀ c : Config,
      (policyPass (fun _ => true) true c).filter (fun ev => isMutation ev) = [] := by
    intro c
    rw [List.filter_eq_nil_iff]
    intro ev hev
    simp [policyPass_dry_no_mutation _ _ ev hev]
  unfold syncTeamsCore
  dsimp only
  by_cases hlen : (diffPass localCfg upstreamCfg).length ≠ 0
  · rw [if_pos hlen, if_pos hlen]
    cases hcm : (if force then Except.ok true else confirmMembers) with
    | error e => simp
    | ok yes =>
      cases yes
      · cases hcr : (if force then Except.ok true else confirmCRA) with
        | error e => simp
        | ok yes2 =>
          cases yes2
          · simp
          · simp [hpol, Except.map]
      · cases hcr : (if force then Except.ok true else confirmCRA) with
        | error e => simp [applyPass_dry]
        | ok yes2 =>
          cases yes2
          · simp [applyPass_dry, applyPass_live_allOk, Except.map]
          · simp [applyPass_dry, applyPass_live_allOk, hpol, Except.map]
  · rw [if_neg hlen, if_neg hlen]
    cases hcr : (if force then Except.ok true else confirmCRA) with
    | error e => simp
    | ok yes2 =>
      cases yes2
      · simp
      · simp [hpol, Except.map]

/-! ## C7 -/

theorem lookupA_applyTeam_ne (mapIter : List String → List String)
    (cfg : Config) (n : String) (ch : TeamChange) (k : String)
    (h : ¬ n = k) :
    lookupA (applyTeam mapIter cfg n ch).teams k = lookupA cfg.teams k := by
  simp only [applyTeam]
  exact lookupA_insertA_ne _ _ _ _ h

theorem lookupA_applyTeam_self (mapIter : List String → List String)
    (cfg : Config) (n : String) (ch : TeamChange) :
    lookupA (applyTeam mapIter cfg n ch).teams n
      = some { lookupD cfg.teams n zeroTeamConfig with
          members := mapIter (ch.add.foldl setInsert (ch.remove.foldl setRemove
            ((lookupD cfg.teams n zeroTeamConfig).members.foldl setInsert []))) } := by
  simp only [applyTeam]
  exact lookupA_insertA_self _ _ _

theorem applyFold_untouched (mapIter : List String → List String) (E : Ev → Bool)
    (changes : List (String × TeamChange)) :
    ∀ (acc : Config × List Ev) (k : String),
      (∀ p ∈ changes, ¬ p.1 = k) →
      lookupA ((changes.foldl (fun acc p =>
          if false then (applyTeam mapIter acc.1 p.1 p.2, acc.2)
          else
            let r := syncTeamMembers E p.1 p.2.add p.2.remove
            if r.2 then (applyTeam mapIter acc.1 p.1 p.2, acc.2 ++ r.1)
            else (acc.1, acc.2 ++ r.1 ++ [Ev.syncError p.1])) acc).1).teams k
        = lookupA acc.1.teams k := by
  induction changes with
  | nil => intro acc k _; rfl
  | cons q rest ih =>
    intro acc k hk
    rw [List.foldl_cons]
    rw [ih _ k (fun p hp => hk p (List.mem_cons_of_mem _ hp))]
    have hq : ¬ q.1 = k := hk q (List.mem_cons_self _ _)
    simp only [Bool.false_eq_true, if_false]
    cases hr : (syncTeamMembers E q.1 q.2.add q.2.remove).2
    · simp [hr]
    · simp only [hr, if_true]
      exact lookupA_applyTeam_ne mapIter acc.1 q.1 q.2 k hq

theorem applyFold_trace_mono (mapIter : List String → List String) (E : Ev → Bool)
    (changes : List (String × TeamChange)) :
    ∀ (acc : Config × List Ev) (ev : Ev), ev ∈ acc.2 →
      ev ∈ ((changes.foldl (fun acc p =>
          if false then (applyTeam mapIter acc.1 p.1 p.2, acc.2)
          else
            let r := syncTeamMembers E p.1 p.2.add p.2.remove
            if r.2 then (applyTeam mapIter acc.1 p.1 p.2, acc.2 ++ r.1)
            else (acc.1, acc.2 ++ r.1 ++ [Ev.syncError p.1])) acc).2) := by
  induction changes with
  | nil => intro acc ev h; exact h
  | cons q rest ih =>
    intro acc ev h
    rw [List.foldl_cons]
    apply ih
    simp only [Bool.false_eq_true, if_false]
    cases hr : (syncTeamMembers E q.1 q.2.add q.2.remove).2
    · simp [hr, List.mem_append, h]
    · simp [hr, List.mem_append, h]

theorem applyFold_reports (mapIter : List String → List String) (E : Ev → Bool)
    (changes : List (String × TeamChange)) :
    ∀ (acc : Config × List Ev) (name : String) (ch : TeamChange),
      (name, ch) ∈ changes →
      (syncTeamMembers E name ch.add ch.remove).2 = false →
      Ev.syncError name ∈ ((changes.foldl (fun acc p =>
          if false then (applyTeam mapIter acc.1 p.1 p.2, acc.2)
          else
            let r := syncTeamMembers E p.1 p.2.add p.2.remove
            if r.2 then (applyTeam mapIter acc.1 p.1 p.2, acc.2 ++ r.1)
            else (acc.1, acc.2 ++ r.1 ++ [Ev.syncError p.1])) acc).2) := by
  induction changes with
  | nil => intro acc name ch h; simp at h
  | cons q rest ih =>
    intro acc name ch hmem hfail
    rw [List.foldl_cons]
    rcases List.mem_cons.mp hmem with h | h
    · subst h
      apply applyFold_trace_mono
      simp [hfail]
    · exact ih _ name ch h hfail

theorem applyFold_skips (mapIter : List String → List String) (E : Ev → Bool)
    (changes : List (String × TeamChange)) :
    ∀ (acc : Config × List Ev) (name : String) (ch : TeamChange),
      (changes.map Prod.fst).Nodup →
      (name, ch) ∈ changes →
      (syncTeamMembers E name ch.add ch.remove).2 = false →
      lookupA ((changes.foldl (fun acc p =>
          if false then (applyTeam mapIter acc.1 p.1 p.2, acc.2)
          else
            let r := syncTeamMembers E p.1 p.2.add p.2.remove
            if r.2 then (applyTeam mapIter acc.1 p.1 p.2, acc.2 ++ r.1)
            else (acc.1, acc.2 ++ r.1 ++ [Ev.syncError p.1])) acc).1).teams name
        = lookupA acc.1.teams name := by
  induction changes with
  | nil => intro acc name ch _ h; simp at h
  | cons q rest ih =>
    intro acc name ch hnd hmem hfail
    simp only [List.map_cons, List.nodup_cons] at hnd
    rw [List.foldl_cons]
    rcases List.mem_cons.mp hmem with h | h
    · subst h
      have hrest : ∀ p ∈ rest, ¬ p.1 = name := by
        intro p hp hpk
        exact hnd.1 (List.mem_map.mpr ⟨p, hp, hpk⟩)
      rw [applyFold_untouched mapIter E rest _ name hrest]
      simp [hfail]
    · have hq : ¬ q.1 = name := by
        intro hk
        exact hnd.1 (hk ▸ List.mem_map.mpr ⟨(name, ch), h, rfl⟩)
      rw [ih _ name ch hnd.2 h hfail]
      simp only [Bool.false_eq_true, if_false]
      cases hr : (syncTeamMembers E q.1 q.2.add q.2.remove).2
      · simp [hr]
      · simp only [hr, if_true]
        exact lookupA_applyTeam_ne mapIter acc.1 q.1 q.2 name hq

theorem applyFold_processes (mapIter : List String → List String) (E : Ev → Bool)
    (changes : List (String × TeamChange)) :
    ∀ (acc : Config × List Ev) (p : String × TeamChange),
      (changes.map Prod.fst).Nodup →
      p ∈ changes →
      (syncTeamMembers E p.1 p.2.add p.2.remove).2 = true →
      lookupA ((changes.foldl (fun acc p =>
          if false then (applyTeam mapIter acc.1 p.1 p.2, acc.2)
          else
            let r := syncTeamMembers E p.1 p.2.add p.2.remove
            if r.2 then (applyTeam mapIter acc.1 p.1 p.2, acc.2 ++ r.1)
            else (acc.1, acc.2 ++ r.1 ++ [Ev.syncError p.1])) acc).1).teams p.1
        = lookupA (applyTeam mapIter acc.1 p.1 p.2).teams p.1 := by
  induction changes with
  | nil => intro acc p _ h; simp at h
  | cons q rest ih =>
    intro acc p hnd hmem hsucc
    simp only [List.map_cons, List.nodup_cons] at hnd
    rw [List.foldl_cons]
    rcases List.mem_cons.mp hmem with h | h
    · subst h
      have hrest : ∀ p' ∈ rest, ¬ p'.1 = p.1 := by
        intro p' hp' hpk
        exact hnd.1 (List.mem_map.mpr ⟨p', hp', hpk⟩)
      rw [applyFold_untouched mapIter E rest _ p.1 hrest]
      simp [hsucc]
    · have hq : ¬ q.1 = p.1 := by
        intro hk
        exact hnd.1 (hk ▸ List.mem_map.mpr ⟨p, h, rfl⟩)
      rw [ih _ p hnd.2 h hsucc]
      rw [lookupA_applyTeam_self, lookupA_applyTeam_self]
      have hpre : lookupA ((if false then (applyTeam mapIter acc.1 q.1 q.2, acc.2)
          else
            let r := syncTeamMembers E q.1 q.2.add q.2.remove
            if r.2 then (applyTeam mapIter acc.1 q.1 q.2, acc.2 ++ r.1)
            else (acc.1, acc.2 ++ r.1 ++ [Ev.syncError q.1])).1).teams p.1
          = lookupA acc.1.teams p.1 := by
        simp only [Bool.false_eq_true, if_false]
        cases hr : (syncTeamMembers E q.1 q.2.add q.2.remove).2
        · simp [hr]
        · simp only [hr, if_true]
          exact lookupA_applyTeam_ne mapIter acc.1 q.1 q.2 p.1 hq
      rw [lookupD, lookupD, hpre]

/-- C7: during the confirmed membership pass (live run), a failed remote
member sync for one team is reported (`syncError` in the trace), that
team is skipped (its in-memory entry is left unchanged), and any other
team of the change map whose sync succeeds is still processed exactly as
`applyTeam` would process it from its original entry — a per-team
mutation failure is never fatal to the pass. -/
theorem applyPass_failure_not_fatal (mapIter : List String → List String)
    (E : Ev → Bool) (cfg : Config) (changes : List (String × TeamChange))
    (hnd : (changes.map Prod.fst).Nodup)
    (name : String) (ch : TeamChange)
    (hmem : (name, ch) ∈ changes)
    (hfail : (syncTeamMembers E name ch.add ch.remove).2 = false)
    (p : String × TeamChange) (hp : p ∈ changes)
    (hpsucc : (syncTeamMembers E p.1 p.2.add p.2.remove).2 = true) :
    Ev.syncError name ∈ (applyPass mapIter E false cfg changes).2
    ∧ lookupA (applyPass mapIter E false cfg changes).1.teams name
        = lookupA cfg.teams name
    ∧ lookupA (applyPass mapIter E false cfg changes).1.teams p.1
        = lookupA (applyTeam mapIter cfg p.1 p.2).teams p.1 :=
  ⟨applyFold_reports mapIter E changes (cfg, []) name ch hmem hfail,
   applyFold_skips mapIter E changes (cfg, []) name ch hnd hmem hfail,
   applyFold_processes mapIter E changes (cfg, []) p hnd hp hpsucc⟩

/-- Witness for C7: team `t1`'s sync fails (its add call is refused),
team `t2`'s sync succeeds; the failure is reported, `t1` is untouched and
`t2` is still processed. -/
theorem applyPass_failure_not_fatal_witness :
    Ev.syncError "t1" ∈ (applyPass (fun l => l)
        (fun ev => if ev = Ev.add "t1" "u" then false else true)
        false
        { organization := "acme"
          teams := [("t1",
            { id := "I1"
              codeReviewAssignment :=
                { algorithm := "", enabled := false, notifyTeam := false
                  teamMemberCount := 0, excludedMembers := [] }
              members := ["a"] }),
            ("t2",
            { id := "I2"
              codeReviewAssignment :=
                { algorithm := "", enabled := false, notifyTeam := false
                  teamMemberCount := 0, excludedMembers := [] }
              members := ["b"] })]
          members := []
          excludeCRAFromAllTeams := [] }
        [("t1", { add := ["u"], remove := [] }),
         ("t2", { add := ["v"], remove := [] })]).2
    ∧ lookupA (applyPass (fun l => l)
        (fun ev => if ev = Ev.add "t1" "u" then false else true)
        false
        { organization := "acme"
          teams := [("t1",
            { id := "I1"
              codeReviewAssignment :=
                { algorithm := "", enabled := false, notifyTeam := false
                  teamMemberCount := 0, excludedMembers := [] }
              members := ["a"] }),
            ("t2",
            { id := "I2"
              codeReviewAssignment :=
                { algorithm := "", enabled := false, notifyTeam := false
                  teamMemberCount := 0, excludedMembers := [] }
              members := ["b"] })]
          members := []
          excludeCRAFromAllTeams := [] }
        [("t1", { add := ["u"], remove := [] }),
         ("t2", { add := ["v"], remove := [] })]).1.teams "t1"
      = lookupA
          ({ organization := "acme"
             teams := [("t1",
               ({ id := "I1"
                  codeReviewAssignment :=
                    { algorithm := "", enabled := false, notifyTeam := false
                      teamMemberCount := 0, excludedMembers := [] }
                  members := ["a"] } : TeamConfig)),
               ("t2",
               ({ id := "I2"
                  codeReviewAssignment :=
                    { algorithm := "", enabled := false, notifyTeam := false
                      teamMemberCount := 0, excludedMembers := [] }
                  members := ["b"] } : TeamConfig))]
             members := []
             excludeCRAFromAllTeams := [] } : Config).teams "t1"
    ∧ lookupA (applyPass (fun l => l)
        (fun ev => if ev = Ev.add "t1" "u" then false else true)
        false
        { organization := "acme"
          teams := [("t1",
            { id := "I1"
              codeReviewAssignment :=
                { algorithm := "", enabled := false, notifyTeam := false
                  teamMemberCount := 0, excludedMembers := [] }
              members := ["a"] }),
            ("t2",
            { id := "I2"
              codeReviewAssignment :=
                { algorithm := "", enabled := false, notifyTeam := false
                  teamMemberCount := 0, excludedMembers := [] }
              members := ["b"] })]
          members := []
          excludeCRAFromAllTeams := [] }
        [("t1", { add := ["u"], remove := [] }),
         ("t2", { add := ["v"], remove := [] })]).1.teams
        ("t2", ({ add := ["v"], remove := [] } : TeamChange)).1
      = lookupA (applyTeam (fun l => l)
          { organization := "acme"
            teams := [("t1",
              { id := "I1"
                codeReviewAssignment :=
                  { algorithm := "", enabled := false, notifyTeam := false
                    teamMemberCount := 0, excludedMembers := [] }
                members := ["a"] }),
              ("t2",
              { id := "I2"
                codeReviewAssignment :=
                  { algorithm := "", enabled := false, notifyTeam := false
                    teamMemberCount := 0, excludedMembers := [] }
                members := ["b"] })]
            members := []
            excludeCRAFromAllTeams := [] }
          ("t2", ({ add := ["v"], remove := [] } : TeamChange)).1
          ("t2", ({ add := ["v"], remove := [] } : TeamChange)).2).teams
          ("t2", ({ add := ["v"], remove := [] } : TeamChange)).1 :=
  applyPass_failure_not_fatal (fun l => l)
    (fun ev => if ev = Ev.add "t1" "u" then false else true)
    _ _ (by decide) "t1" { add := ["u"], remove := [] } (by decide) (by decide)
    ("t2", { add := ["v"], remove := [] }) (by decide) (by decide)

/-! ## C9 -/

theorem lookupA_mem_fst {α : Type} {m : List (String × α)} {k : String}
    (h : k ∈ m.map Prod.fst) : ∃ v, lookupA m k = some v := by
  induction m with
  | nil => simp at h
  | cons p rest ih =>
    obtain ⟨k₀, v₀⟩ := p
    by_cases h0 : k₀ = k
    · exact ⟨v₀, by simp [lookupA, h0]⟩
    · simp only [List.map_cons, List.mem_cons] at h
      rcases h with h | h
      · exact absurd h.symm h0
      · obtain ⟨v, hv⟩ := ih h
        exact ⟨v, by simp [lookupA, h0, hv]⟩

theorem excl_applyTeam (mapIter : List String → List String) (cfg : Config)
    (n : String) (ch : TeamChange) (name : String)
    (hmem : n ∈ cfg.teams.map Prod.fst) :
    (lookupA (applyTeam mapIter cfg n ch).teams name).map
        (fun t => t.codeReviewAssignment.excludedMembers)
      = (lookupA cfg.teams name).map
          (fun t => t.codeReviewAssignment.excludedMembers) := by
  by_cases h : n = name
  · subst h
    rw [lookupA_applyTeam_self]
    obtain ⟨t, ht⟩ := lookupA_mem_fst hmem
    rw [ht]
    simp [lookupD, ht]
  · rw [lookupA_applyTeam_ne _ _ _ _ _ h]

theorem keys_applyTeam (mapIter : List String → List String) (cfg : Config)
    (n : String) (ch : TeamChange) (hmem : n ∈ cfg.teams.map Prod.fst) :
    (applyTeam mapIter cfg n ch).teams.map Prod.fst = cfg.teams.map Prod.fst := by
  simp only [applyTeam]
  exact map_fst_insertA_of_mem _ _ _ hmem

theorem applyFold_excl (mapIter : List String → List String) (E : Ev → Bool)
    (dryRun : Bool) (changes : List (String × TeamChange)) :
    ∀ acc : Config × List Ev,
      (∀ p ∈ changes, p.1 ∈ acc.1.teams.map Prod.fst) →
      ∀ name : String,
      (lookupA ((changes.foldl (fun acc p =>
          if dryRun then (applyTeam mapIter acc.1 p.1 p.2, acc.2)
          else
            let r := syncTeamMembers E p.1 p.2.add p.2.remove
            if r.2 then (applyTeam mapIter acc.1 p.1 p.2, acc.2 ++ r.1)
            else (acc.1, acc.2 ++ r.1 ++ [Ev.syncError p.1])) acc).1).teams
        name).map (fun t => t.codeReviewAssignment.excludedMembers)
      = (lookupA acc.1.teams name).map
          (fun t => t.codeReviewAssignment.excludedMembers) := by
  induction changes with
  | nil => intro acc _ name; rfl
  | cons q rest ih =>
    intro acc hkeys name
    have hq : q.1 ∈ acc.1.teams.map Prod.fst := hkeys q (List.mem_cons_self _ _)
    rw [List.foldl_cons]
    have hstep : ∀ acc' : Config × List Ev,
        acc' = (if dryRun then (applyTeam mapIter acc.1 q.1 q.2, acc.2)
          else
            let r := syncTeamMembers E q.1 q.2.add q.2.remove
            if r.2 then (applyTeam mapIter acc.1 q.1 q.2, acc.2 ++ r.1)
            else (acc.1, acc.2 ++ r.1 ++ [Ev.syncError q.1])) →
        acc'.1 = acc.1 ∨ acc'.1 = applyTeam mapIter acc.1 q.1 q.2 := by
      intro acc' hacc'
      by_cases hd : dryRun
      · right
        rw [hacc']
        simp [hd]
      · cases hr : (syncTeamMembers E q.1 q.2.add q.2.remove).2
        · left
          rw [hacc']
          simp [hd, hr]
        · right
          rw [hacc']
          simp [hd, hr]
    rcases hstep _ rfl with hs | hs
    · rw [ih _ (by rw [hs]; exact fun p hp => hkeys p (List.mem_cons_of_mem _ hp)) name,
        hs]
    · rw [ih _ (by
        rw [hs, keys_applyTeam mapIter acc.1 q.1 q.2 hq]
        exact fun p hp => hkeys p (List.mem_cons_of_mem _ hp)) name, hs]
      exact excl_applyTeam mapIter acc.1 q.1 q.2 name hq

theorem diffPass_keys_sub (localCfg upstreamCfg : Config) :
    ∀ p ∈ diffPass localCfg upstreamCfg, p.1 ∈ localCfg.teams.map Prod.fst := by
  intro p hp
  obtain ⟨lt, hmem, _⟩ := mem_diffPass localCfg.teams p hp
  exact List.mem_map.mpr ⟨(p.1, lt), hmem, rfl⟩

/-- C9: for every input config and every successful execution path of
`SyncTeams`, each team's `CodeReviewAssignment.ExcludedMembers` in the
returned config equals its value in the input config — the temporary
clearing during the diff pass is never observable in the returned
model. -/
theorem syncTeams_preserves_excludedMembers
    (mapIter : List String → List String) (E : Ev → Bool)
    (localCfg upstreamCfg : Config) (force dryRun : Bool)
    (confirmMembers confirmCRA : Except Unit Bool)
    (out : Config × List Ev)
    (h : syncTeamsCore mapIter E localCfg upstreamCfg force dryRun
      confirmMembers confirmCRA = Except.ok out) (name : String) :
    (lookupA out.1.teams name).map
        (fun t => t.codeReviewAssignment.excludedMembers)
      = (lookupA localCfg.teams name).map
          (fun t => t.codeReviewAssignment.excludedMembers) := by
  unfold syncTeamsCore at h
  dsimp only at h
  by_cases hlen : (diffPass localCfg upstreamCfg).length ≠ 0
  · rw [if_pos hlen] at h
    cases hcm : (if force then Except.ok true else confirmMembers) with
    | error e =>
      rw [hcm] at h
      simp at h
    | ok yes =>
      rw [hcm] at h
      cases yes
      · simp only [Bool.false_eq_true, if_false] at h
        cases hcr : (if force then Except.ok true else confirmCRA) with
        | error e =>
          rw [hcr] at h
          simp at h
        | ok yes2 =>
          rw [hcr] at h
          cases yes2
          · simp only [Bool.false_eq_true, if_false] at h
            injection h with h
            rw [← h]
          · simp only [if_true] at h
            injection h with h
            rw [← h]
      · simp only [if_true] at h
        cases hcr : (if force then Except.ok true else confirmCRA) with
        | error e =>
          rw [hcr] at h
          simp at h
        | ok yes2 =>
          rw [hcr] at h
          cases yes2
          · simp only [Bool.false_eq_true, if_false] at h
            injection h with h
            rw [← h]
            exact applyFold_excl mapIter E dryRun _ (localCfg, [])
              (diffPass_keys_sub localCfg upstreamCfg) name
          · simp only [if_true] at h
            injection h with h
            rw [← h]
            exact applyFold_excl mapIter E dryRun _ (localCfg, [])
              (diffPass_keys_sub localCfg upstreamCfg) name
  · rw [if_neg hlen] at h
    cases hcr : (if force then Except.ok true else confirmCRA) with
    | error e =>
      rw [hcr] at h
      simp at h
    | ok yes2 =>
      rw [hcr] at h
      cases yes2
      · simp only [Bool.false_eq_true, if_false] at h
        injection h with h
        rw [← h]
      · simp only [if_true] at h
        injection h with h
        rw [← h]

/-- Witness for C9: a concrete forced dry run (whose policy pass even
reports an unresolvable per-team exclusion) returns the team's
`excludedMembers` unchanged. -/
theorem syncTeams_preserves_excludedMembers_witness :
    (lookupA ((({ organization := "acme"
                  teams := [("ops",
                    { id := "T1"
                      codeReviewAssignment :=
                        { algorithm := "", enabled := false, notifyTeam := false
                          teamMemberCount := 0
                          excludedMembers := [{ login := "bob" }] }
                      members := ["a"] })]
                  members := []
                  excludeCRAFromAllTeams := [] } : Config),
        ([Ev.lookupError "bob" "ops"] : List Ev)).1).teams "ops").map
        (fun t => t.codeReviewAssignment.excludedMembers)
      = (lookupA ({ organization := "acme"
                    teams := [("ops",
                      { id := "T1"
                        codeReviewAssignment :=
                          { algorithm := "", enabled := false, notifyTeam := false
                            teamMemberCount := 0
                            excludedMembers := [{ login := "bob" }] }
                        members := ["a"] })]
                    members := []
                    excludeCRAFromAllTeams := [] } : Config).teams "ops").map
          (fun t => t.codeReviewAssignment.excludedMembers) :=
  syncTeams_preserves_excludedMembers (fun l => l) (fun _ => true)
    { organization := "acme"
      teams := [("ops",
        { id := "T1"
          codeReviewAssignment :=
            { algorithm := "", enabled := false, notifyTeam := false
              teamMemberCount := 0
              excludedMembers := [{ login := "bob" }] }
          members := ["a"] })]
      members := []
      excludeCRAFromAllTeams := [] }
    { organization := "acme"
      teams := [("ops",
        { id := "T1"
          codeReviewAssignment :=
            { algorithm := "", enabled := false, notifyTeam := false
              teamMemberCount := 0
              excludedMembers := [] }
          members := ["a"] })]
      members := []
      excludeCRAFromAllTeams := [] }
    true true (Except.ok true) (Except.ok true)
    ({ organization := "acme"
       teams := [("ops",
         { id := "T1"
           codeReviewAssignment :=
             { algorithm := "", enabled := false, notifyTeam := false
               teamMemberCount := 0
               excludedMembers := [{ login := "bob" }] }
           members := ["a"] })]
       members := []
       excludeCRAFromAllTeams := [] },
     [Ev.lookupError "bob" "ops"])
    (by rfl) "ops"

/-! ## C10 -/

theorem lowerChar_fixed (c : Char) (h : slugAllowed c = true ∨ c = '-') :
    lowerChar c = c := by
  rcases h with h | h
  · simp only [slugAllowed, Bool.or_eq_true, decide_eq_true_eq] at h
    unfold lowerChar
    rw [if_neg]
    rintro ⟨h3, h4⟩
    rw [Char.le_def] at h3 h4
    have n3 : (65 : Nat) ≤ c.val.toNat := h3
    have n4 : c.val.toNat ≤ 90 := h4
    rcases h with ⟨h1, h2⟩ | ⟨h1, h2⟩ <;> rw [Char.le_def] at h1 h2
    · have m1 : (97 : Nat) ≤ c.val.toNat := h1
      omega
    · have m2 : c.val.toNat ≤ 57 := h2
      omega
  · subst h
    decide

theorem mem_replaceRunsAux (l : List Char) :
    ∀ (inRun : Bool) (c : Char),
      c ∈ replaceRunsAux inRun l → slugAllowed c = true ∨ c = '-' := by
  induction l with
  | nil => intro inRun c h; simp [replaceRunsAux] at h
  | cons a as ih =>
    intro inRun c h
    by_cases ha : slugAllowed a
    · rw [replaceRunsAux, if_pos ha] at h
      rcases List.mem_cons.mp h with h | h
      · subst h
        exact Or.inl ha
      · exact ih false c h
    · rw [replaceRunsAux, if_neg ha] at h
      by_cases hin : inRun
      · rw [if_pos hin] at h
        exact ih true c h
      · rw [if_neg hin] at h
        rcases List.mem_cons.mp h with h | h
        · subst h
          exact Or.inr rfl
        · exact ih true c h

theorem head_replaceRunsAux_true (l : List Char) :
    ∀ c : Char, (replaceRunsAux true l).head? = some c →
      slugAllowed c = true := by
  induction l with
  | nil => intro c h; simp [replaceRunsAux] at h
  | cons a as ih =>
    intro c h
    by_cases ha : slugAllowed a
    · rw [replaceRunsAux, if_pos ha] at h
      simp only [List.head?_cons, Option.some.injEq] at h
      subst h
      exact ha
    · rw [replaceRunsAux, if_neg ha, if_pos rfl] at h
      exact ih c h

theorem chain_replaceRunsAux (l : List Char) :
    ∀ inRun : Bool,
      List.Chain' (fun a b => a = '-' → slugAllowed b = true)
        (replaceRunsAux inRun l) := by
  induction l with
  | nil => intro inRun; simp [replaceRunsAux]
  | cons a as ih =>
    intro inRun
    by_cases ha : slugAllowed a
    · rw [replaceRunsAux, if_pos ha]
      rw [List.chain'_cons']
      refine ⟨?_, ih false⟩
      intro b hb hdash
      rw [hdash] at ha
      exact absurd ha (by decide)
    · rw [replaceRunsAux, if_neg ha]
      by_cases hin : inRun
      · rw [if_pos hin]
        exact ih true
      · rw [if_neg hin]
        rw [List.chain'_cons']
        refine ⟨?_, ih true⟩
        intro b hb _
        exact head_replaceRunsAux_true as b hb

theorem replaceRunsAux_fixed (l : List Char)
    (hmem : ∀ c ∈ l, slugAllowed c = true ∨ c = '-')
    (hchain : List.Chain' (fun a b => a = '-' → slugAllowed b = true) l) :
    replaceRunsAux false l = l
    ∧ ((∀ c, l.head? = some c → ¬ c = '-') → replaceRunsAux true l = l) := by
  induction l with
  | nil => exact ⟨rfl, fun _ => rfl⟩
  | cons a as ih =>
    rw [List.chain'_cons'] at hchain
    obtain ⟨hR, hchain'⟩ := hchain
    have hmem' : ∀ c ∈ as, slugAllowed c = true ∨ c = '-' :=
      fun c hc => hmem c (List.mem_cons_of_mem _ hc)
    obtain ⟨ih1, ih2⟩ := ih hmem' hchain'
    rcases hmem a (List.mem_cons_self _ _) with ha | ha
    · constructor
      · rw [replaceRunsAux, if_pos ha, ih1]
      · intro _
        rw [replaceRunsAux, if_pos ha, ih1]
    · subst ha
      have hna : ¬ slugAllowed '-' = true := by decide
      have hrest : ∀ c, as.head? = some c → ¬ c = '-' := by
        intro c hc hdash
        have hall := hR c hc rfl
        rw [hdash] at hall
        exact hna hall
      constructor
      · rw [replaceRunsAux, if_neg hna, if_neg (by simp), ih2 hrest]
      · intro hc
        exact absurd rfl (hc '-' rfl)

theorem head?_of_append_eq {α : Type} (l₁ t l₂ : List α) (c : α)
    (h : l₁ ++ t = l₂) (hc : l₁.head? = some c) : l₂.head? = some c := by
  cases l₁ with
  | nil => simp at hc
  | cons a as =>
    simp only [List.head?_cons, Option.some.injEq] at hc
    subst hc
    rw [← h]
    rfl

theorem trimDashes_isPre (l : List Char) :
    trimDashes l <+: l.dropWhile (fun c => c = '-') := by
  obtain ⟨s, hs⟩ := List.dropWhile_suffix
    (l := (l.dropWhile (fun c => c = '-')).reverse) (fun c => decide (c = '-'))
  refine ⟨s.reverse, ?_⟩
  show ((l.dropWhile (fun c => c = '-')).reverse.dropWhile
      (fun c => c = '-')).reverse ++ s.reverse
    = l.dropWhile (fun c => c = '-')
  rw [← List.reverse_append, hs, List.reverse_reverse]

theorem head?_trimDashes (l : List Char) (c : Char)
    (h : (trimDashes l).head? = some c) : ¬ c = '-' := by
  obtain ⟨t, ht⟩ := trimDashes_isPre l
  have hh := head?_of_append_eq _ t _ c ht h
  have hd := List.head?_dropWhile_not (fun c => decide (c = '-')) l
  rw [hh] at hd
  exact of_decide_eq_false hd

theorem getLast?_trimDashes (l : List Char) (c : Char)
    (h : (trimDashes l).getLast? = some c) : ¬ c = '-' := by
  unfold trimDashes at h
  rw [List.getLast?_reverse] at h
  have hd := List.head?_dropWhile_not (fun c => decide (c = '-'))
    ((l.dropWhile (fun c => c = '-')).reverse)
  rw [h] at hd
  exact of_decide_eq_false hd

theorem mem_trimDashes (l : List Char) (c : Char) (h : c ∈ trimDashes l) :
    c ∈ l := by
  unfold trimDashes at h
  rw [List.mem_reverse] at h
  have h1 := (List.dropWhile_suffix
    (fun c => c = '-')).sublist.subset h
  rw [List.mem_reverse] at h1
  exact (List.dropWhile_suffix (fun c => c = '-')).sublist.subset h1

theorem chain'_trimDashes (R : Char → Char → Prop) (l : List Char)
    (h : List.Chain' R l) : List.Chain' R (trimDashes l) := by
  obtain ⟨t₁, ht₁⟩ := trimDashes_isPre l
  obtain ⟨s, hs⟩ := List.dropWhile_suffix (l := l) (fun c => decide (c = '-'))
  have hsplit : s ++ trimDashes l ++ t₁ = l := by
    rw [List.append_assoc, ht₁, hs]
  exact List.Chain'.infix h ⟨s, t₁, hsplit⟩

theorem trimDashes_fixed (l : List Char)
    (hhead : ∀ c, l.head? = some c → ¬ c = '-')
    (hlast : ∀ c, l.getLast? = some c → ¬ c = '-') :
    trimDashes l = l := by
  have h1 : l.dropWhile (fun c => c = '-') = l := by
    cases l with
    | nil => rfl
    | cons a as =>
      rw [List.dropWhile_cons, if_neg]
      simp only [decide_eq_true_eq]
      exact hhead a rfl
  have h2 : l.reverse.dropWhile (fun c => c = '-') = l.reverse := by
    cases hr : l.reverse with
    | nil => simp
    | cons a as =>
      rw [List.dropWhile_cons, if_neg]
      simp only [decide_eq_true_eq]
      apply hlast
      rw [← List.head?_reverse, hr]
      rfl
  unfold trimDashes
  rw [h1, h2, List.reverse_reverse]

/-- C10: `slug` is idempotent, its output contains only lowercase ASCII
letters, digits and `'-'`, and the output has no leading or trailing
`'-'`. -/
theorem slug_idempotent_and_shape (s : String) :
    slug (slug s) = slug s
    ∧ (slug s).data.all (fun c => slugAllowed c || c == '-') = true
    ∧ Option.all (fun c => c != '-') (slug s).data.head? = true
    ∧ Option.all (fun c => c != '-') (slug s).data.getLast? = true := by
  have hdata : (slug s).data
      = trimDashes (replaceRuns (s.data.map lowerChar)) := rfl
  have hmem : ∀ c ∈ (slug s).data, slugAllowed c = true ∨ c = '-' := by
    intro c hc
    rw [hdata] at hc
    exact mem_replaceRunsAux _ false c (mem_trimDashes _ c hc)
  refine ⟨?_, ?_, ?_, ?_⟩
  · have hmap : (slug s).data.map lowerChar = (slug s).data := by
      rw [List.map_congr_left (fun c hc => lowerChar_fixed c (hmem c hc))]
      exact List.map_id _
    have hchain : List.Chain' (fun a b => a = '-' → slugAllowed b = true)
        ((slug s).data) := by
      rw [hdata]
      exact chain'_trimDashes _ _ (chain_replaceRunsAux _ false)
    have hrr : replaceRuns ((slug s).data) = (slug s).data :=
      (replaceRunsAux_fixed _ hmem hchain).1
    have htrim : trimDashes ((slug s).data) = (slug s).data := by
      apply trimDashes_fixed
      · intro c hc
        rw [hdata] at hc
        exact head?_trimDashes _ c hc
      · intro c hc
        rw [hdata] at hc
        exact getLast?_trimDashes _ c hc
    show String.mk (trimDashes (replaceRuns ((slug s).data.map lowerChar)))
      = slug s
    rw [hmap, hrr, htrim]
  · rw [List.all_eq_true]
    intro c hc
    rcases hmem c hc with h | h
    · simp [h]
    · simp [h]
  · cases hh : (slug s).data.head? with
    | none => rfl
    | some c =>
      rw [hdata] at hh
      have := head?_trimDashes _ c hh
      simp [Option.all, bne_iff_ne, this]
  · cases hh : (slug s).data.getLast? with
    | none => rfl
    | some c =>
      rw [hdata] at hh
      have := getLast?_trimDashes _ c hh
      simp [Option.all, bne_iff_ne, this]

/-! ## C5 -/

theorem insertA_insertA {α : Type} (m : List (String × α)) (k : String)
    (v v' : α) : insertA (insertA m k v) k v' = insertA m k v' := by
  induction m with
  | nil => simp [insertA]
  | cons p rest ih =>
    obtain ⟨k₀, v₀⟩ := p
    by_cases h : k₀ = k
    · simp [insertA, h]
    · simp [insertA, h, ih]

theorem sort_append_sort (x y : List String) :
    ((x.insertionSort (· ≤ ·)) ++ y).insertionSort (· ≤ ·)
      = (x ++ y).insertionSort (· ≤ ·) := by
  haveI : IsAntisymm String (· ≤ ·) := ⟨fun a b h1 h2 => le_antisymm h1 h2⟩
  apply List.eq_of_perm_of_sorted (r := (· ≤ · : String → String → Prop))
  · exact (List.perm_insertionSort _ _).trans
      (((List.perm_insertionSort _ x).append_right y).trans
        (List.perm_insertionSort _ (x ++ y)).symm)
  · exact List.sorted_insertionSort _ _
  · exact List.sorted_insertionSort _ _

theorem find?_teamNode (R : Remote) (v : Vars) (l : List RemoteTeam)
    (hnd : (l.map RemoteTeam.id).Nodup) (rt : RemoteTeam) (hrt : rt ∈ l) :
    (l.map (teamNodeOf R v)).find? (fun n => n.id == rt.id)
      = some (teamNodeOf R v rt) := by
  induction l with
  | nil => simp at hrt
  | cons a as ih =>
    simp only [List.map_cons, List.nodup_cons] at hnd
    rw [List.map_cons, List.find?_cons]
    have hida : (teamNodeOf R v a).id = a.id := rfl
    by_cases hb : a.id = rt.id
    · rw [show ((teamNodeOf R v a).id == rt.id) = true by simp [hida, hb]]
      rcases List.mem_cons.mp hrt with h | h
      · rw [h]
      · exact absurd (hb ▸ List.mem_map.mpr ⟨rt, h, rfl⟩) hnd.1
    · rw [show ((teamNodeOf R v a).id == rt.id) = false by simp [hida, hb]]
      rcases List.mem_cons.mp hrt with h | h
      · exact absurd (h ▸ rfl) hb
      · exact ih hnd.2 h

theorem withID_query (R : Remote) (hids : (R.teams.map RemoteTeam.id).Nodup)
    (v : Vars) (rt : RemoteTeam)
    (hchunk : rt ∈ (R.teams.drop (v.teamsCursor.getD 0)).take
      (R.tSize (v.teamsCursor.getD 0))) :
    withID (queryRemote R v).teams.nodes rt.id
      = Except.ok (teamNodeOf R v rt) := by
  have hsub : ((R.teams.drop (v.teamsCursor.getD 0)).take
      (R.tSize (v.teamsCursor.getD 0))).Sublist R.teams :=
    (List.take_sublist _ _).trans (List.drop_sublist _ _)
  have hnd : (((R.teams.drop (v.teamsCursor.getD 0)).take
      (R.tSize (v.teamsCursor.getD 0))).map RemoteTeam.id).Nodup :=
    hids.sublist (hsub.map _)
  unfold withID
  rw [show (queryRemote R v).teams.nodes
      = ((R.teams.drop (v.teamsCursor.getD 0)).take
        (R.tSize (v.teamsCursor.getD 0))).map (teamNodeOf R v) from rfl]
  rw [find?_teamNode R v _ hnd rt hchunk]

theorem take_append_drop_len {α : Type} (sz : Nat) (x : List α) :
    x.take sz ++ x.drop ((x.take sz).length) = x := by
  rcases le_or_lt sz x.length with h | h
  · rw [List.length_take, Nat.min_eq_left h, List.take_append_drop]
  · rw [List.take_of_length_le (Nat.le_of_lt h), List.drop_length,
      List.append_nil]

theorem chunk_split {α : Type} (l : List α) (m0 sz : Nat) :
    (l.drop m0).take sz ++ l.drop (m0 + ((l.drop m0).take sz).length)
      = l.drop m0 := by
  rw [← List.drop_drop]
  exact take_append_drop_len sz (l.drop m0)

theorem memberLoop_requery (R : Remote)
    (hids : (R.teams.map RemoteTeam.id).Nodup)
    (hmS : ∀ tid i, 0 < R.mSize tid i)
    (rt : RemoteTeam) (t : GoTeam) (hid : t.id = rt.id)
    (vt : Option Nat)
    (hchunk : rt ∈ (R.teams.drop (vt.getD 0)).take (R.tSize (vt.getD 0)))
    (name : String) (result : QueryResult) :
    ∀ (fuel m0 : Nat) (teamCfg : TeamConfig) (c : Config),
      m0 ≤ rt.members.length →
      rt.members.length - m0 + 1 ≤ fuel →
      ∃ mf : Nat,
        memberLoop R fuel t name result
          { teamsCursor := vt, membersCursor := some m0 } teamCfg c true
        = Except.ok
            ({ organization := c.organization
               teams := insertA c.teams name
                 { id := teamCfg.id
                   codeReviewAssignment := teamCfg.codeReviewAssignment
                   members := (teamCfg.members
                     ++ (rt.members.drop m0).map GoTeamMember.login).insertionSort
                       (· ≤ ·) }
               members := (rt.members.drop m0).foldl
                 (fun acc (m : GoTeamMember) =>
                   insertA acc m.login { id := toString m.id, name := m.name })
                 c.members
               excludeCRAFromAllTeams := c.excludeCRAFromAllTeams },
             { teamsCursor := vt, membersCursor := some mf }) := by
  intro fuel
  induction fuel with
  | zero =>
    intro m0 teamCfg c h1 h2
    omega
  | succ f ih =>
    intro m0 teamCfg c h1 h2
    have hwith : withID (queryRemote R
        { teamsCursor := vt, membersCursor := some m0 }).teams.nodes t.id
        = Except.ok (teamNodeOf R
            { teamsCursor := vt, membersCursor := some m0 } rt) := by
      rw [hid]
      exact withID_query R hids _ rt hchunk
    rw [memberLoop]
    rw [show (if true = true then
        queryRemote R { teamsCursor := vt, membersCursor := some m0 }
      else result) = queryRemote R { teamsCursor := vt, membersCursor := some m0 }
      from if_pos rfl]
    rw [hwith]
    dsimp only
    have hnodes : (teamNodeOf R
        { teamsCursor := vt, membersCursor := some m0 } rt).members.nodes
        = (rt.members.drop m0).take (R.mSize rt.id m0) := rfl
    have hec : (teamNodeOf R
        { teamsCursor := vt, membersCursor := some m0 } rt).members.pageInfo.endCursor
        = m0 + ((rt.members.drop m0).take (R.mSize rt.id m0)).length := rfl
    have hnp : (teamNodeOf R
        { teamsCursor := vt, membersCursor := some m0 } rt).members.pageInfo.hasNextPage
        = decide (m0 + ((rt.members.drop m0).take (R.mSize rt.id m0)).length
            < rt.members.length) := rfl
    have hlen : ((rt.members.drop m0).take (R.mSize rt.id m0)).length
        = min (R.mSize rt.id m0) (rt.members.length - m0) := by
      rw [List.length_take, List.length_drop]
    rw [hnodes, hec, hnp]
    by_cases hmore : m0 + ((rt.members.drop m0).take (R.mSize rt.id m0)).length
        < rt.members.length
    · -- another member page follows: requery at the advanced cursor
      rw [decide_eq_true hmore]
      rw [if_neg (show ¬ ¬ true = true by simp)]
      have hms := hmS rt.id m0
      obtain ⟨mf, hmf⟩ := ih
        (m0 + ((rt.members.drop m0).take (R.mSize rt.id m0)).length)
        { id := teamCfg.id
          codeReviewAssignment := teamCfg.codeReviewAssignment
          members := (teamCfg.members
            ++ ((rt.members.drop m0).take
              (R.mSize rt.id m0)).map GoTeamMember.login).insertionSort (· ≤ ·) }
        { organization := c.organization
          teams := insertA c.teams name
            { id := teamCfg.id
              codeReviewAssignment := teamCfg.codeReviewAssignment
              members := (teamCfg.members
                ++ ((rt.members.drop m0).take
                  (R.mSize rt.id m0)).map GoTeamMember.login).insertionSort (· ≤ ·) }
          members := ((rt.members.drop m0).take (R.mSize rt.id m0)).foldl
            (fun acc (m : GoTeamMember) =>
              insertA acc m.login { id := toString m.id, name := m.name })
            c.members
          excludeCRAFromAllTeams := c.excludeCRAFromAllTeams }
        (by omega) (by omega)
      dsimp only at hmf
      rw [insertA_insertA, sort_append_sort, List.append_assoc,
        ← List.map_append, chunk_split, ← List.foldl_append, chunk_split] at hmf
      exact ⟨mf, hmf⟩
    · -- final member page: the chunk is the whole remainder
      rw [decide_eq_false hmore]
      rw [if_pos (show ¬ false = true by simp)]
      refine ⟨m0, ?_⟩
      have hall : (rt.members.drop m0).take (R.mSize rt.id m0)
          = rt.members.drop m0 := by
        apply List.take_of_length_le
        rw [List.length_drop]
        rw [hlen] at hmore
        omega
      rw [hall]

theorem memberLoop_run (R : Remote)
    (hids : (R.teams.map RemoteTeam.id).Nodup)
    (hmS : ∀ tid i, 0 < R.mSize tid i)
    (rt : RemoteTeam) (t : GoTeam) (hid : t.id = rt.id)
    (vt : Option Nat)
    (hchunk : rt ∈ (R.teams.drop (vt.getD 0)).take (R.tSize (vt.getD 0)))
    (name : String) (v : Vars) (hvt : v.teamsCursor = vt)
    (fuel : Nat) (teamCfg : TeamConfig) (c : Config)
    (hfuel : rt.members.length + 1 ≤ fuel) :
    ∃ v' : Vars, v'.teamsCursor = vt ∧
      memberLoop R fuel t name
        (queryRemote R { teamsCursor := vt, membersCursor := none })
        v teamCfg c false
      = Except.ok
          ({ organization := c.organization
             teams := insertA c.teams name
               { id := teamCfg.id
                 codeReviewAssignment := teamCfg.codeReviewAssignment
                 members := (teamCfg.members
                   ++ rt.members.map GoTeamMember.login).insertionSort (· ≤ ·) }
             members := rt.members.foldl
               (fun acc (m : GoTeamMember) =>
                 insertA acc m.login { id := toString m.id, name := m.name })
               c.members
             excludeCRAFromAllTeams := c.excludeCRAFromAllTeams }, v') := by
  match fuel, hfuel with
  | f + 1, hfuel =>
  have hwith : withID (queryRemote R
      { teamsCursor := vt, membersCursor := none }).teams.nodes t.id
      = Except.ok (teamNodeOf R
          { teamsCursor := vt, membersCursor := none } rt) := by
    rw [hid]
    exact withID_query R hids _ rt hchunk
  rw [memberLoop]
  rw [show (if false = true then
      queryRemote R { teamsCursor := v.teamsCursor, membersCursor := v.membersCursor }
    else queryRemote R { teamsCursor := vt, membersCursor := none })
    = queryRemote R { teamsCursor := vt, membersCursor := none }
    from if_neg (by simp)]
  rw [hwith]
  dsimp only
  have hnodes : (teamNodeOf R
      { teamsCursor := vt, membersCursor := none } rt).members.nodes
      = (rt.members.drop 0).take (R.mSize rt.id 0) := rfl
  have hec : (teamNodeOf R
      { teamsCursor := vt, membersCursor := none } rt).members.pageInfo.endCursor
      = 0 + ((rt.members.drop 0).take (R.mSize rt.id 0)).length := rfl
  have hnp : (teamNodeOf R
      { teamsCursor := vt, membersCursor := none } rt).members.pageInfo.hasNextPage
      = decide (0 + ((rt.members.drop 0).take (R.mSize rt.id 0)).length
          < rt.members.length) := rfl
  have hlen : ((rt.members.drop 0).take (R.mSize rt.id 0)).length
      = min (R.mSize rt.id 0) (rt.members.length - 0) := by
    rw [List.length_take, List.length_drop]
  rw [hnodes, hec, hnp]
  by_cases hmore : 0 + ((rt.members.drop 0).take (R.mSize rt.id 0)).length
      < rt.members.length
  · rw [decide_eq_true hmore]
    rw [if_neg (show ¬ ¬ true = true by simp)]
    have hms := hmS rt.id 0
    obtain ⟨mf, hmf⟩ := memberLoop_requery R hids hmS rt t hid vt hchunk name
      (queryRemote R { teamsCursor := vt, membersCursor := none }) f
      (0 + ((rt.members.drop 0).take (R.mSize rt.id 0)).length)
      { id := teamCfg.id
        codeReviewAssignment := teamCfg.codeReviewAssignment
        members := (teamCfg.members
          ++ ((rt.members.drop 0).take
            (R.mSize rt.id 0)).map GoTeamMember.login).insertionSort (· ≤ ·) }
      { organization := c.organization
        teams := insertA c.teams name
          { id := teamCfg.id
            codeReviewAssignment := teamCfg.codeReviewAssignment
            members := (teamCfg.members
              ++ ((rt.members.drop 0).take
                (R.mSize rt.id 0)).map GoTeamMember.login).insertionSort (· ≤ ·) }
        members := ((rt.members.drop 0).take (R.mSize rt.id 0)).foldl
          (fun acc (m : GoTeamMember) =>
            insertA acc m.login { id := toString m.id, name := m.name })
          c.members
        excludeCRAFromAllTeams := c.excludeCRAFromAllTeams }
      (by omega) (by omega)
    dsimp only at hmf
    rw [insertA_insertA, sort_append_sort, List.append_assoc,
      ← List.map_append, chunk_split, ← List.foldl_append, chunk_split,
      List.drop_zero] at hmf
    refine ⟨{ teamsCursor := vt, membersCursor := some mf }, rfl, ?_⟩
    rw [hvt]
    exact hmf
  · rw [decide_eq_false hmore]
    rw [if_pos (show ¬ false = true by simp)]
    refine ⟨v, hvt, ?_⟩
    have hall : (rt.members.drop 0).take (R.mSize rt.id 0)
        = rt.members := by
      rw [List.drop_zero]
      apply List.take_of_length_le
      rw [hlen] at hmore
      omega
    rw [hall]

theorem teamsLoop_run (R : Remote)
    (hids : (R.teams.map RemoteTeam.id).Nodup)
    (hmS : ∀ tid i, 0 < R.mSize tid i)
    (vt : Option Nat) :
    ∀ (l : List RemoteTeam) (fuel : Nat) (v : Vars) (c : Config),
      v.teamsCursor = vt →
      (∀ rt ∈ l, rt ∈ (R.teams.drop (vt.getD 0)).take (R.tSize (vt.getD 0))) →
      (l.map RemoteTeam.name).Nodup →
      (∀ rt ∈ l, ¬ rt.name ∈ c.teams.map Prod.fst) →
      (∀ rt ∈ l, rt.members.length + 1 ≤ fuel) →
      ∃ v' : Vars, v'.teamsCursor = vt ∧
        teamsLoop R fuel
          (l.map (teamNodeOf R { teamsCursor := vt, membersCursor := none }))
          (queryRemote R { teamsCursor := vt, membersCursor := none }) v c
        = Except.ok
            ({ organization := c.organization
               teams := c.teams ++ l.map (fun rt =>
                 (rt.name,
                  { id := toString rt.id
                    codeReviewAssignment := craOfNode
                      (teamNodeOf R { teamsCursor := vt, membersCursor := none } rt)
                    members := (rt.members.map GoTeamMember.login).insertionSort
                      (· ≤ ·) }))
               members := l.foldl
                 (fun accm rt => rt.members.foldl
                   (fun acc (m : GoTeamMember) =>
                     insertA acc m.login { id := toString m.id, name := m.name })
                   accm)
                 c.members
               excludeCRAFromAllTeams := c.excludeCRAFromAllTeams }, v') := by
  intro l
  induction l with
  | nil =>
    intro fuel v c hvt _ _ _ _
    exact ⟨v, hvt, by simp [teamsLoop]⟩
  | cons rt rest ih =>
    intro fuel v c hvt hchunk hnames hfresh hfuel
    simp only [List.map_cons, List.nodup_cons] at hnames
    rw [List.map_cons, teamsLoop]
    have hname : (teamNodeOf R
        { teamsCursor := vt, membersCursor := none } rt).name = rt.name := rfl
    rw [hname]
    rw [lookupA_eq_none_of_not_mem c.teams rt.name
      (hfresh rt (List.mem_cons_self _ _))]
    dsimp only
    obtain ⟨v', hv', hml⟩ := memberLoop_run R hids hmS rt
      (teamNodeOf R { teamsCursor := vt, membersCursor := none } rt) rfl vt
      (hchunk rt (List.mem_cons_self _ _)) rt.name v hvt fuel
      { id := toString (teamNodeOf R
          { teamsCursor := vt, membersCursor := none } rt).id
        codeReviewAssignment := craOfNode
          (teamNodeOf R { teamsCursor := vt, membersCursor := none } rt)
        members := [] }
      c (hfuel rt (List.mem_cons_self _ _))
    rw [hml]
    dsimp only
    have hid2 : toString (teamNodeOf R
        { teamsCursor := vt, membersCursor := none } rt).id = toString rt.id := rfl
    obtain ⟨v'', hv'', hrest⟩ := ih fuel v'
      { organization := c.organization
        teams := insertA c.teams rt.name
          { id := toString (teamNodeOf R
              { teamsCursor := vt, membersCursor := none } rt).id
            codeReviewAssignment := craOfNode
              (teamNodeOf R { teamsCursor := vt, membersCursor := none } rt)
            members := ([] ++ rt.members.map GoTeamMember.login).insertionSort
              (· ≤ ·) }
        members := rt.members.foldl
          (fun acc (m : GoTeamMember) =>
            insertA acc m.login { id := toString m.id, name := m.name })
          c.members
        excludeCRAFromAllTeams := c.excludeCRAFromAllTeams }
      hv'
      (fun rt' hrt' => hchunk rt' (List.mem_cons_of_mem _ hrt'))
      hnames.2
      (by
        intro rt' hrt'
        dsimp only
        rw [insertA_of_not_mem c.teams rt.name _
          (hfresh rt (List.mem_cons_self _ _))]
        rw [List.map_append]
        intro hmem
        rcases List.mem_append.mp hmem with h | h
        · exact hfresh rt' (List.mem_cons_of_mem _ hrt') h
        · simp only [List.map_cons, List.map_nil, List.mem_singleton] at h
          exact hnames.1 (h ▸ List.mem_map.mpr ⟨rt', hrt', rfl⟩))
      (fun rt' hrt' => hfuel rt' (List.mem_cons_of_mem _ hrt'))
    refine ⟨v'', hv'', ?_⟩
    rw [hrest]
    dsimp only
    rw [insertA_of_not_mem c.teams rt.name _
      (hfresh rt (List.mem_cons_self _ _))]
    rw [List.map_cons, List.nil_append, hid2]
    rw [List.append_assoc]
    rfl

theorem craOfNode_teamNodeOf (R : Remote) (v : Vars) (rt : RemoteTeam) :
    craOfNode (teamNodeOf R v rt)
      = if rt.reviewRequestDelegationEnabled then
          { algorithm := rt.reviewRequestDelegationAlgorithm
            enabled := rt.reviewRequestDelegationEnabled
            notifyTeam := rt.reviewRequestDelegationNotifyTeam
            teamMemberCount := rt.reviewRequestDelegationMemberCount
            excludedMembers := [] }
        else zeroTeamConfig.codeReviewAssignment := rfl

theorem outerLoop_run (R : Remote)
    (hids : (R.teams.map RemoteTeam.id).Nodup)
    (hnames : (R.teams.map RemoteTeam.name).Nodup)
    (htS : ∀ i, 0 < R.tSize i)
    (hmS : ∀ tid i, 0 < R.mSize tid i) :
    ∀ (fuel : Nat) (vt : Option Nat) (c : Config),
      (∀ rt ∈ R.teams.drop (vt.getD 0), ¬ rt.name ∈ c.teams.map Prod.fst) →
      (R.teams.length - vt.getD 0)
        + (R.teams.map (fun t => t.members.length)).sum + 2 ≤ fuel →
      ∃ cm : List (String × User),
        outerLoop R fuel
          (queryRemote R { teamsCursor := vt, membersCursor := none })
          { teamsCursor := vt, membersCursor := none } c
        = Except.ok
            { organization := c.organization
              teams := c.teams ++ (R.teams.drop (vt.getD 0)).map (fun rt =>
                (rt.name,
                 { id := toString rt.id
                   codeReviewAssignment :=
                     if rt.reviewRequestDelegationEnabled then
                       { algorithm := rt.reviewRequestDelegationAlgorithm
                         enabled := rt.reviewRequestDelegationEnabled
                         notifyTeam := rt.reviewRequestDelegationNotifyTeam
                         teamMemberCount := rt.reviewRequestDelegationMemberCount
                         excludedMembers := [] }
                     else zeroTeamConfig.codeReviewAssignment
                   members := (rt.members.map GoTeamMember.login).insertionSort
                     (· ≤ ·) }))
              members := cm
              excludeCRAFromAllTeams := c.excludeCRAFromAllTeams } := by
  intro fuel
  induction fuel with
  | zero =>
    intro vt c _ hfuel
    omega
  | succ f ih =>
    intro vt c hfresh hfuel
    have hchunkSub : ∀ rt ∈ (R.teams.drop (vt.getD 0)).take
        (R.tSize (vt.getD 0)), rt ∈ R.teams.drop (vt.getD 0) :=
      fun rt hrt => (List.take_sublist _ _).subset hrt
    have hchunkNames : (((R.teams.drop (vt.getD 0)).take
        (R.tSize (vt.getD 0))).map RemoteTeam.name).Nodup :=
      hnames.sublist (((List.take_sublist _ _).trans
        (List.drop_sublist _ _)).map _)
    have hsum : ∀ rt ∈ R.teams, rt.members.length
        ≤ (R.teams.map (fun t => t.members.length)).sum := by
      intro rt hrt
      exact List.single_le_sum (fun x _ => Nat.zero_le x) _
        (List.mem_map.mpr ⟨rt, hrt, rfl⟩)
    rw [outerLoop]
    have hres : (queryRemote R
        { teamsCursor := vt, membersCursor := none }).teams.nodes
        = ((R.teams.drop (vt.getD 0)).take (R.tSize (vt.getD 0))).map
          (teamNodeOf R { teamsCursor := vt, membersCursor := none }) := rfl
    have hecT : (queryRemote R
        { teamsCursor := vt, membersCursor := none }).teams.pageInfo.endCursor
        = vt.getD 0 + ((R.teams.drop (vt.getD 0)).take
          (R.tSize (vt.getD 0))).length := rfl
    have hnpT : (queryRemote R
        { teamsCursor := vt, membersCursor := none }).teams.pageInfo.hasNextPage
        = decide (vt.getD 0 + ((R.teams.drop (vt.getD 0)).take
          (R.tSize (vt.getD 0))).length < R.teams.length) := rfl
    have hlenT : ((R.teams.drop (vt.getD 0)).take (R.tSize (vt.getD 0))).length
        = min (R.tSize (vt.getD 0)) (R.teams.length - vt.getD 0) := by
      rw [List.length_take, List.length_drop]
    rw [hres, hecT, hnpT]
    obtain ⟨v', hv', hteams⟩ := teamsLoop_run R hids hmS vt
      ((R.teams.drop (vt.getD 0)).take (R.tSize (vt.getD 0))) f
      { teamsCursor := vt, membersCursor := none } c rfl
      (fun rt hrt => hrt) hchunkNames
      (fun rt hrt => hfresh rt (hchunkSub rt hrt))
      (by
        intro rt hrt
        have := hsum rt ((List.drop_sublist _ _).subset (hchunkSub rt hrt))
        omega)
    simp only [craOfNode_teamNodeOf] at hteams
    rw [hteams]
    dsimp only
    by_cases hmoreT : vt.getD 0 + ((R.teams.drop (vt.getD 0)).take
        (R.tSize (vt.getD 0))).length < R.teams.length
    · -- more team pages: advance the team cursor, reset the member cursor
      rw [decide_eq_true hmoreT]
      rw [if_neg (show ¬ ¬ true = true by simp)]
      have hts := htS (vt.getD 0)
      obtain ⟨cm, hrec⟩ := ih
        (some (vt.getD 0 + ((R.teams.drop (vt.getD 0)).take
          (R.tSize (vt.getD 0))).length))
        { organization := c.organization
          teams := c.teams ++ ((R.teams.drop (vt.getD 0)).take
            (R.tSize (vt.getD 0))).map (fun rt =>
            (rt.name,
             { id := toString rt.id
               codeReviewAssignment :=
                 if rt.reviewRequestDelegationEnabled then
                   { algorithm := rt.reviewRequestDelegationAlgorithm
                     enabled := rt.reviewRequestDelegationEnabled
                     notifyTeam := rt.reviewRequestDelegationNotifyTeam
                     teamMemberCount := rt.reviewRequestDelegationMemberCount
                     excludedMembers := [] }
                 else zeroTeamConfig.codeReviewAssignment
               members := (rt.members.map GoTeamMember.login).insertionSort
                 (· ≤ ·) }))
          members := ((R.teams.drop (vt.getD 0)).take
            (R.tSize (vt.getD 0))).foldl
            (fun accm rt => rt.members.foldl
              (fun acc (m : GoTeamMember) =>
                insertA acc m.login { id := toString m.id, name := m.name })
              accm)
            c.members
          excludeCRAFromAllTeams := c.excludeCRAFromAllTeams }
        (by
          intro rt hrt hkey
          simp only [Option.getD_some] at hrt
          dsimp only at hkey
          have hrt0 : rt ∈ R.teams.drop (vt.getD 0) := by
            rw [← List.drop_drop] at hrt
            exact (List.drop_sublist _ _).subset hrt
          rw [List.map_append] at hkey
          rcases List.mem_append.mp hkey with h | h
          · exact hfresh rt hrt0 h
          · have h2 : rt.name ∈ ((R.teams.drop (vt.getD 0)).take
                (R.tSize (vt.getD 0))).map RemoteTeam.name := by
              rw [List.map_map] at h
              simpa using h
            have hsplitN : (((R.teams.drop (vt.getD 0)).take
                  (R.tSize (vt.getD 0))).map RemoteTeam.name)
                ++ ((R.teams.drop (vt.getD 0 + ((R.teams.drop (vt.getD 0)).take
                  (R.tSize (vt.getD 0))).length)).map RemoteTeam.name)
                = (R.teams.drop (vt.getD 0)).map RemoteTeam.name := by
              rw [← List.map_append, chunk_split]
            have hdropNodup : ((R.teams.drop (vt.getD 0)).map
                RemoteTeam.name).Nodup :=
              hnames.sublist ((List.drop_sublist _ _).map _)
            rw [← hsplitN, List.nodup_append] at hdropNodup
            exact hdropNodup.2.2 h2 (List.mem_map.mpr ⟨rt, hrt, rfl⟩))
        (by
          simp only [Option.getD_some]
          rw [hlenT] at hmoreT ⊢
          omega)
      simp only [Option.getD_some] at hrec
      rw [hrec]
      refine ⟨cm, ?_⟩
      rw [List.append_assoc, ← List.map_append]
      rw [show (R.teams.drop (vt.getD 0)).take (R.tSize (vt.getD 0))
          ++ R.teams.drop (vt.getD 0 + ((R.teams.drop (vt.getD 0)).take
            (R.tSize (vt.getD 0))).length)
          = R.teams.drop (vt.getD 0) from chunk_split R.teams _ _]
    · -- last team page
      rw [decide_eq_false hmoreT]
      rw [if_pos (show ¬ false = true by simp)]
      have hallT : (R.teams.drop (vt.getD 0)).take (R.tSize (vt.getD 0))
          = R.teams.drop (vt.getD 0) := by
        apply List.take_of_length_le
        rw [List.length_drop]
        rw [hlenT] at hmoreT
        omega
      rw [hallT]
      exact ⟨_, rfl⟩

/-- C5: `GetCurrentConfig` assembles the complete remote snapshot for any
placement of page boundaries (any positive team-page and member-page
sizes): every fetched team appears exactly once, in fetch order, and its
stored member list is exactly the sorted login list of all of that team's
member pages (the member cursor being reset whenever the team cursor
advances, as `outerLoop` does). -/
theorem getCurrentConfig_assembles (owner : String) (R : Remote)
    (htS : ∀ i, 0 < R.tSize i)
    (hmS : ∀ tid i, 0 < R.mSize tid i)
    (hnames : (R.teams.map RemoteTeam.name).Nodup)
    (hids : (R.teams.map RemoteTeam.id).Nodup)
    (rt : RemoteTeam) (hrt : rt ∈ R.teams) :
    (getCurrentConfig owner R).map (fun c => c.teams.map Prod.fst)
      = Except.ok (R.teams.map RemoteTeam.name)
    ∧ (getCurrentConfig owner R).map (fun c => lookupA c.teams rt.name)
      = Except.ok (some
          { id := toString rt.id
            codeReviewAssignment :=
              if rt.reviewRequestDelegationEnabled then
                { algorithm := rt.reviewRequestDelegationAlgorithm
                  enabled := rt.reviewRequestDelegationEnabled
                  notifyTeam := rt.reviewRequestDelegationNotifyTeam
                  teamMemberCount := rt.reviewRequestDelegationMemberCount
                  excludedMembers := [] }
              else zeroTeamConfig.codeReviewAssignment
            members := (rt.members.map GoTeamMember.login).insertionSort
              (· ≤ ·) }) := by
  obtain ⟨cm, hout⟩ := outerLoop_run R hids hnames htS hmS (fuelOf R) none
    { organization := owner, teams := [], members := []
      excludeCRAFromAllTeams := [] }
    (by
      intro rt' _ h
      simp at h)
    (by
      simp only [fuelOf, Option.getD_none, Nat.sub_zero]
      omega)
  simp only [Option.getD_none, List.drop_zero, List.nil_append] at hout
  have hdef : getCurrentConfig owner R = outerLoop R (fuelOf R)
      (queryRemote R { teamsCursor := none, membersCursor := none })
      { teamsCursor := none, membersCursor := none }
      { organization := owner, teams := [], members := []
        excludeCRAFromAllTeams := [] } := rfl
  rw [hdef, hout]
  have hkeys : ((R.teams.map (fun rt =>
      (rt.name,
       ({ id := toString rt.id
          codeReviewAssignment :=
            if rt.reviewRequestDelegationEnabled then
              { algorithm := rt.reviewRequestDelegationAlgorithm
                enabled := rt.reviewRequestDelegationEnabled
                notifyTeam := rt.reviewRequestDelegationNotifyTeam
                teamMemberCount := rt.reviewRequestDelegationMemberCount
                excludedMembers := [] }
            else zeroTeamConfig.codeReviewAssignment
          members := (rt.members.map GoTeamMember.login).insertionSort
            (· ≤ ·) } : TeamConfig)))).map Prod.fst).Nodup := by
    rw [List.map_map]
    simpa using hnames
  constructor
  · simp only [Except.map]
    rw [List.map_map]
    simp
  · simp only [Except.map]
    rw [lookupA_of_mem_nodup hkeys (List.mem_map.mpr ⟨rt, hrt, rfl⟩)]

/-- Witness for C5: two remote teams fetched through pages of size one
(two team pages; one member page for the first team). -/
theorem getCurrentConfig_assembles_witness :
    (getCurrentConfig "acme"
      { teams := [{ id := 1, name := "alpha", reviewRequestDelegationEnabled := true, reviewRequestDelegationAlgorithm := "LOAD_BALANCE", reviewRequestDelegationMemberCount := 1, reviewRequestDelegationNotifyTeam := false, members := [{ id := 7, login := "u7", name := "U7" }] },
      { id := 2, name := "beta", reviewRequestDelegationEnabled := false, reviewRequestDelegationAlgorithm := "", reviewRequestDelegationMemberCount := 0, reviewRequestDelegationNotifyTeam := false, members := [] }], tSize := fun _ => 1, mSize := fun _ _ => 1 }).map (fun c => c.teams.map Prod.fst)
      = Except.ok (([{ id := 1, name := "alpha", reviewRequestDelegationEnabled := true, reviewRequestDelegationAlgorithm := "LOAD_BALANCE", reviewRequestDelegationMemberCount := 1, reviewRequestDelegationNotifyTeam := false, members := [{ id := 7, login := "u7", name := "U7" }] },
      { id := 2, name := "beta", reviewRequestDelegationEnabled := false, reviewRequestDelegationAlgorithm := "", reviewRequestDelegationMemberCount := 0, reviewRequestDelegationNotifyTeam := false, members := [] }] : List RemoteTeam).map RemoteTeam.name)
    ∧ (getCurrentConfig "acme"
      { teams := [{ id := 1, name := "alpha", reviewRequestDelegationEnabled := true, reviewRequestDelegationAlgorithm := "LOAD_BALANCE", reviewRequestDelegationMemberCount := 1, reviewRequestDelegationNotifyTeam := false, members := [{ id := 7, login := "u7", name := "U7" }] },
      { id := 2, name := "beta", reviewRequestDelegationEnabled := false, reviewRequestDelegationAlgorithm := "", reviewRequestDelegationMemberCount := 0, reviewRequestDelegationNotifyTeam := false, members := [] }], tSize := fun _ => 1, mSize := fun _ _ => 1 }).map
        (fun c => lookupA c.teams ({ id := 1, name := "alpha", reviewRequestDelegationEnabled := true, reviewRequestDelegationAlgorithm := "LOAD_BALANCE", reviewRequestDelegationMemberCount := 1, reviewRequestDelegationNotifyTeam := false, members := [{ id := 7, login := "u7", name := "U7" }] } : RemoteTeam).name)
      = Except.ok (some
          { id := toString ({ id := 1, name := "alpha", reviewRequestDelegationEnabled := true, reviewRequestDelegationAlgorithm := "LOAD_BALANCE", reviewRequestDelegationMemberCount := 1, reviewRequestDelegationNotifyTeam := false, members := [{ id := 7, login := "u7", name := "U7" }] } : RemoteTeam).id
            codeReviewAssignment :=
              if ({ id := 1, name := "alpha", reviewRequestDelegationEnabled := true, reviewRequestDelegationAlgorithm := "LOAD_BALANCE", reviewRequestDelegationMemberCount := 1, reviewRequestDelegationNotifyTeam := false, members := [{ id := 7, login := "u7", name := "U7" }] } : RemoteTeam).reviewRequestDelegationEnabled then
                { algorithm := ({ id := 1, name := "alpha", reviewRequestDelegationEnabled := true, reviewRequestDelegationAlgorithm := "LOAD_BALANCE", reviewRequestDelegationMemberCount := 1, reviewRequestDelegationNotifyTeam := false, members := [{ id := 7, login := "u7", name := "U7" }] } : RemoteTeam).reviewRequestDelegationAlgorithm
                  enabled := ({ id := 1, name := "alpha", reviewRequestDelegationEnabled := true, reviewRequestDelegationAlgorithm := "LOAD_BALANCE", reviewRequestDelegationMemberCount := 1, reviewRequestDelegationNotifyTeam := false, members := [{ id := 7, login := "u7", name := "U7" }] } : RemoteTeam).reviewRequestDelegationEnabled
                  notifyTeam := ({ id := 1, name := "alpha", reviewRequestDelegationEnabled := true, reviewRequestDelegationAlgorithm := "LOAD_BALANCE", reviewRequestDelegationMemberCount := 1, reviewRequestDelegationNotifyTeam := false, members := [{ id := 7, login := "u7", name := "U7" }] } : RemoteTeam).reviewRequestDelegationNotifyTeam
                  teamMemberCount := ({ id := 1, name := "alpha", reviewRequestDelegationEnabled := true, reviewRequestDelegationAlgorithm := "LOAD_BALANCE", reviewRequestDelegationMemberCount := 1, reviewRequestDelegationNotifyTeam := false, members := [{ id := 7, login := "u7", name := "U7" }] } : RemoteTeam).reviewRequestDelegationMemberCount
                  excludedMembers := [] }
              else zeroTeamConfig.codeReviewAssignment
            members := (({ id := 1, name := "alpha", reviewRequestDelegationEnabled := true, reviewRequestDelegationAlgorithm := "LOAD_BALANCE", reviewRequestDelegationMemberCount := 1, reviewRequestDelegationNotifyTeam := false, members := [{ id := 7, login := "u7", name := "U7" }] } : RemoteTeam).members.map GoTeamMember.login).insertionSort
              (fun x1 x2 => x1 <= x2) }) :=
  getCurrentConfig_assembles "acme"
    { teams := [{ id := 1, name := "alpha", reviewRequestDelegationEnabled := true, reviewRequestDelegationAlgorithm := "LOAD_BALANCE", reviewRequestDelegationMemberCount := 1, reviewRequestDelegationNotifyTeam := false, members := [{ id := 7, login := "u7", name := "U7" }] },
      { id := 2, name := "beta", reviewRequestDelegationEnabled := false, reviewRequestDelegationAlgorithm := "", reviewRequestDelegationMemberCount := 0, reviewRequestDelegationNotifyTeam := false, members := [] }], tSize := fun _ => 1, mSize := fun _ _ => 1 }
    (fun _ => Nat.one_pos) (fun _ _ => Nat.one_pos)
    (by decide) (by decide) ({ id := 1, name := "alpha", reviewRequestDelegationEnabled := true, reviewRequestDelegationAlgorithm := "LOAD_BALANCE", reviewRequestDelegationMemberCount := 1, reviewRequestDelegationNotifyTeam := false, members := [{ id := 7, login := "u7", name := "U7" }] } : RemoteTeam) (List.mem_cons_self _ _)

end TeamManager
